import Mathlib

/-!
Verification development for the packet codec in `bravo/beta/packets.py`
(the `bravo` repository).

The Python module is a declarative binary codec built on the `construct`
2.5-series combinator library.  We give a shallow embedding of the module:
byte streams are `List Nat` (each element a byte value), parsing consumes
from the front of the list and returns the unread tail, building produces a
byte list.  All parse errors raised by the combinators used in the module
are subclasses of `construct.ConstructError` (FieldError for short reads,
ConstError for Magic/Const mismatches, MappingError for enums, SwitchError
for missing switch cases, ArrayError for RepeatUntil); the bulk driver's
`OptionalGreedyRange` catches exactly `ConstructError`, so we collect those
in one error type `PErr`.

Modelling choices, each matching a specific behaviour of the source:
* Float fields (`BFloat32`/`BFloat64`) are carried as their raw wire bytes
  (`Value.vbytes`): the module performs no arithmetic on float payloads,
  it only moves them between the wire and the payload record.
* The `ucs2` text codec (in `bravo/encodings`, an external collaborator per
  the spec) is modelled from the spec: an exact two-byte-per-character
  big-endian transform, one 16-bit code per character.
* The `zlib` transform used by the chunk packet's PascalString (an external
  collaborator per the spec) is modelled as an opaque pass-through on the
  length-delimited byte payload.
* Python `Container`s (string-keyed records) are modelled as ordered
  binding chains inside `Value`; Python `dict` values for entity metadata
  are modelled in canonical key-sorted form, which is equality-faithful.
-/

/-- Decoded field values (the shapes of Python values the module produces):
integers, enum symbols, booleans, UCS2 text (as a list of 16-bit character
codes), raw byte strings, lists, string-keyed records (as `vfield` chains
closed by `vnil`, wrapped by `vrec`), and entity-metadata dictionaries (as
key-sorted `vmentry` chains wrapped by `vmeta`). -/
inductive Value where
  | vint (n : Int)
  | vsym (s : String)
  | vbool (b : Bool)
  | vstr (cs : List Nat)
  | vbytes (bs : List Nat)
  | vnil
  | vcons (head tail : Value)
  | vfield (name : String) (v : Value) (rest : Value)
  | vrec (fields : Value)
  | vlist (elems : Value)
  | vmentry (k : Nat) (t : String) (v : Value) (rest : Value)
  | vmeta (entries : Value)
deriving DecidableEq, Repr

open Value

/-- Parse-time errors; every constructor corresponds to a subclass of
`construct.ConstructError` (see module header comment). -/
inductive PErr where
  | fieldShort
  | constMism
  | mapMiss
  | switchMiss
deriving DecidableEq, Repr

/-- Build-time errors: missing container key (Python KeyError escaping the
builder), out-of-range integers (struct.error), unknown enum symbols
(MappingError), array/blob length mismatches (ArrayError/FieldError), and
values of the wrong shape for a field. -/
inductive BErr where
  | missingField
  | range
  | mapMiss
  | lenMism
  | typeErr
deriving DecidableEq, Repr

deriving instance DecidableEq for Except

/-- Append two record binding chains (`vfield` chains closed by `vnil`). -/
def bappend : Value → Value → Value
  | vfield n v r, y => vfield n v (bappend r y)
  | _, y => y

/-- Look up a name in a binding chain (first match, as in a Python dict
with distinct keys). -/
def blookup : Value → String → Option Value
  | vfield n v r, k => if n = k then some v else blookup r k
  | _, _ => none

/-- Python dict item assignment on a binding chain: replace the existing
binding in place, or append a new binding at the end. -/
def dictSet : Value → String → Value → Value
  | vfield n v r, k, w => if n = k then vfield n w r else vfield n v (dictSet r k w)
  | _, k, w => vfield k w vnil

/-- Python `d.update(dict(arg))` where `arg` is a pair list: later pairs of
the same key win, and each resulting pair is assigned into `d`. -/
def dictUpdate (d : Value) (src : List (String × Value)) : Value :=
  src.foldl (fun acc kv => dictSet acc kv.1 kv.2) d

/-- The value for key `k` after Python builds `dict(src)` from a pair list:
the last pair with that key, if any. -/
def lastVal (src : List (String × Value)) (k : String) : Option Value :=
  src.foldl (fun acc kv => if kv.1 = k then some kv.2 else acc) none

/-- Read exactly `n` bytes from the front of the stream; a short read is
construct's FieldError. -/
def readBytes (n : Nat) (b : List Nat) : Except PErr (List Nat × List Nat) :=
  if n ≤ b.length then .ok (b.take n, b.drop n) else .error .fieldShort

/-- Big-endian unsigned integer value of a byte list. -/
def beNat (bs : List Nat) : Nat :=
  bs.foldl (fun a x => a * 256 + x) 0

/-- Two's-complement reading of a `w`-byte big-endian value. -/
def sInt (w : Nat) (v : Nat) : Int :=
  if v < 2 ^ (8 * w - 1) then (v : Int) else (v : Int) - 2 ^ (8 * w)

/-- Big-endian bytes of an unsigned value, width `w` (callers check range). -/
def beBytes : Nat → Nat → List Nat
  | 0, _ => []
  | w + 1, n => beBytes w (n / 256) ++ [n % 256]

/-- Build a `w`-byte big-endian unsigned field (struct.pack range check). -/
def buildU (w : Nat) : Value → Except BErr (List Nat)
  | vint n => if 0 ≤ n ∧ n < 2 ^ (8 * w) then .ok (beBytes w n.toNat) else .error .range
  | _ => .error .typeErr

/-- Build a `w`-byte big-endian signed (two's-complement) field. -/
def buildS (w : Nat) : Value → Except BErr (List Nat)
  | vint n =>
    if -(2 ^ (8 * w - 1)) ≤ n ∧ n < 2 ^ (8 * w - 1) then
      .ok (beBytes w (n.emod (2 ^ (8 * w))).toNat)
    else .error .range
  | _ => .error .typeErr

/-- Parse a `w`-byte unsigned big-endian field. -/
def parseU (w : Nat) (b : List Nat) : Except PErr (Int × List Nat) := do
  let (bs, r) ← readBytes w b
  .ok ((beNat bs : Int), r)

/-- Parse a `w`-byte signed big-endian field. -/
def parseS (w : Nat) (b : List Nat) : Except PErr (Int × List Nat) := do
  let (bs, r) ← readBytes w b
  .ok (sInt w (beNat bs), r)

/-- Modelled from the spec: the `ucs2` codec of `bravo/encodings` (not under
`src/`), an exact two-byte-per-character transform.  Decoding maps each
big-endian byte pair to one character code. -/
def ucs2decode : List Nat → List Nat
  | b0 :: b1 :: rest => (b0 * 256 + b1) :: ucs2decode rest
  | _ => []

/-- Modelled from the spec: `ucs2` encoding, one character code to one
big-endian byte pair. -/
def ucs2encode : List Nat → List Nat
  | [] => []
  | c :: rest => (c / 256 % 256) :: (c % 256) :: ucs2encode rest

/-- `AlphaString` parse: UBInt16 character count `length`, then a MetaField
of `length * 2` bytes, decoded through the ucs2 StringAdapter. -/
def parseAlpha (b : List Nat) : Except PErr (Value × List Nat) := do
  let (len, r) ← parseU 2 b
  let (data, r2) ← readBytes (len.toNat * 2) r
  .ok (vstr (ucs2decode data), r2)

/-- `AlphaString` build through `DoubleAdapter._encode`: the length field is
`len(encoded) / 2`, i.e. the character count, followed by the ucs2 bytes. -/
def buildAlpha : Value → Except BErr (List Nat)
  | vstr cs =>
    if cs.length < 2 ^ 16 then .ok (beBytes 2 cs.length ++ ucs2encode cs)
    else .error .range
  | _ => .error .typeErr

/-- `PascalString` parse with a `lenW`-byte length field: read the length,
then that many raw bytes (the zlib variant is modelled pass-through). -/
def parsePascal (lenW : Nat) (b : List Nat) : Except PErr (Value × List Nat) := do
  let (len, r) ← parseU lenW b
  let (data, r2) ← readBytes len.toNat r
  .ok (vbytes data, r2)

/-- `PascalString` build: length of the byte payload, then the bytes. -/
def buildPascal (lenW : Nat) : Value → Except BErr (List Nat)
  | vbytes bs =>
    if bs.length < 2 ^ (8 * lenW) then .ok (beBytes lenW bs.length ++ bs)
    else .error .range
  | _ => .error .typeErr

/-- The `items` Struct (packets.py lines 99-108): SBInt16 `primary`, and iff
`primary >= 0` the embedded `item_information` group UBInt8 `count`,
UBInt16 `secondary` and the two-byte Magic sentinel `\xff\xff` (a mismatch
is construct's ConstError).  Returns the flattened binding chain. -/
def parseItems (b : List Nat) : Except PErr (Value × List Nat) := do
  let (p, r) ← parseS 2 b
  if 0 ≤ p then do
    let (c, r2) ← parseU 1 r
    let (s, r3) ← parseU 2 r2
    let (m, r4) ← readBytes 2 r3
    if m = [255, 255] then
      .ok (vfield "primary" (vint p) (vfield "count" (vint c)
        (vfield "secondary" (vint s) vnil)), r4)
    else .error .constMism
  else
    .ok (vfield "primary" (vint p) vnil, r)

/-- Build the `items` group from a container: `primary` always; when it is
non-negative also `count`, `secondary` and the canonical sentinel bytes. -/
def buildItems (obj : Value) : Except BErr (List Nat) := do
  match blookup obj "primary" with
  | none => .error .missingField
  | some pv => do
    let pb ← buildS 2 pv
    match pv with
    | vint p =>
      if 0 ≤ p then do
        let cb ← (match blookup obj "count" with
          | none => .error .missingField
          | some cv => buildU 1 cv)
        let sb ← (match blookup obj "secondary" with
          | none => .error .missingField
          | some sv => buildU 2 sv)
        .ok (pb ++ cb ++ sb ++ [255, 255])
      else .ok pb
    | _ => .error .typeErr

/-- The `metadata_types` table: the 3-bit type tag indexes this list. -/
def metadata_types : List String :=
  ["byte", "short", "int", "float", "string", "slot", "coords"]

/-- Parse the wire value of one metadata entry, dispatched on the 3-bit tag
by the `metadata_switch` table (a missing case is construct's SwitchError).
Tag 3 is a BFloat32 carried as raw bytes, tag 5 the inner `slot` Struct,
tag 6 the inner `coords` Struct. -/
def mdValue (tag : Nat) (b : List Nat) : Except PErr (Value × List Nat) :=
  if tag = 0 then do
    let (n, r) ← parseU 1 b
    .ok (vint n, r)
  else if tag = 1 then do
    let (n, r) ← parseU 2 b
    .ok (vint n, r)
  else if tag = 2 then do
    let (n, r) ← parseU 4 b
    .ok (vint n, r)
  else if tag = 3 then do
    let (bs, r) ← readBytes 4 b
    .ok (vbytes bs, r)
  else if tag = 4 then parseAlpha b
  else if tag = 5 then do
    let (p, r) ← parseU 2 b
    let (c, r2) ← parseU 1 r
    let (s, r3) ← parseU 2 r2
    .ok (vrec (vfield "primary" (vint p) (vfield "count" (vint c)
      (vfield "secondary" (vint s) vnil))), r3)
  else if tag = 6 then do
    let (x, r) ← parseU 4 b
    let (y, r2) ← parseU 4 r
    let (z, r3) ← parseU 4 r2
    .ok (vrec (vfield "x" (vint x) (vfield "y" (vint y)
      (vfield "z" (vint z) vnil))), r3)
  else .error .switchMiss

/-- Parse one metadata `data` entry: the BitStruct id byte (3-bit `first`
tag in the high bits, 5-bit `second` slot index in the low bits) and the
tag-dispatched value.  Returns (slot index, type name, value). -/
def mdEntry (b : List Nat) : Except PErr ((Nat × String × Value) × List Nat) := do
  let (idb, r) ← readBytes 1 b
  match idb with
  | [id] => do
    let first := id / 32 % 8
    let second := id % 32
    let (v, r2) ← mdValue first r
    .ok ((second, metadata_types.getD first "", v), r2)
  | _ => .error .fieldShort

/-- The `RepeatUntil` loop of the metadata Struct: parse entries until the
Peek'd next byte equals 0x7f; a Peek at end of stream yields None (which is
not 0x7f, so the loop continues and the next entry read fails short).  Fuel
bounds the iteration count; each entry consumes at least two bytes, so
`b.length + 1` fuel is never exhausted. -/
def mdLoop : Nat → List Nat → Except PErr (List (Nat × String × Value) × List Nat)
  | 0, _ => .error .fieldShort
  | f + 1, b => do
    let (e, r) ← mdEntry b
    if r.head? = some 127 then .ok ([e], r)
    else do
      let (es, r2) ← mdLoop f r
      .ok (e :: es, r2)

/-- Insert one decoded entry into the canonical (key-sorted) dictionary
chain; a later wire entry with the same slot index overwrites the earlier
one, exactly as Python's `d[m.id.second] = ...` does. -/
def mdInsert : Value → Nat → String → Value → Value
  | vmentry k2 t2 v2 r, k, t, v =>
    if k < k2 then vmentry k t v (vmentry k2 t2 v2 r)
    else if k = k2 then vmentry k t v r
    else vmentry k2 t2 v2 (mdInsert r k t v)
  | _, k, t, v => vmentry k t v vnil

/-- Canonical dictionary form of the decoded entry list (MetadataAdapter's
`_decode` builds a Python dict; our canonical form is key-sorted, which is
faithful for dict equality). -/
def mdCanon (es : List (Nat × String × Value)) : Value :=
  es.foldl (fun acc e => mdInsert acc e.1 e.2.1 e.2.2) vnil

/-- Parse the full `metadata` subconstruct: the RepeatUntil entry loop, then
the Const 0x7f terminator byte, adapted to a dictionary value. -/
def parseMeta (b : List Nat) : Except PErr (Value × List Nat) := do
  let (es, r) ← mdLoop (b.length + 1) b
  let (tb, r2) ← readBytes 1 r
  if tb = [127] then .ok (vmeta (mdCanon es), r2) else .error .constMism

/-- Build the wire value of one metadata entry for a given type tag
(MetadataAdapter's `_encode` side: the UBInt/float/string/slot/coords
shapes of `metadata_switch`). -/
def mdBuildValue (tag : Nat) (v : Value) : Except BErr (List Nat) :=
  if tag = 0 then buildU 1 v
  else if tag = 1 then buildU 2 v
  else if tag = 2 then buildU 4 v
  else if tag = 3 then match v with
    | vbytes bs => if bs.length = 4 then .ok bs else .error .typeErr
    | _ => .error .typeErr
  else if tag = 4 then buildAlpha v
  else if tag = 5 then match v with
    | vrec fs => do
      let pb ← (match blookup fs "primary" with
        | some pv => buildU 2 pv | none => .error .missingField)
      let cb ← (match blookup fs "count" with
        | some cv => buildU 1 cv | none => .error .missingField)
      let sb ← (match blookup fs "secondary" with
        | some sv => buildU 2 sv | none => .error .missingField)
      .ok (pb ++ cb ++ sb)
    | _ => .error .typeErr
  else if tag = 6 then match v with
    | vrec fs => do
      let xb ← (match blookup fs "x" with
        | some xv => buildU 4 xv | none => .error .missingField)
      let yb ← (match blookup fs "y" with
        | some yv => buildU 4 yv | none => .error .missingField)
      let zb ← (match blookup fs "z" with
        | some zv => buildU 4 zv | none => .error .missingField)
      .ok (xb ++ yb ++ zb)
    | _ => .error .typeErr
  else .error .typeErr

/-- Build the entry list of a metadata dictionary: for each entry the
BitStruct id byte (`metadata_types.index(t)` in the high 3 bits — an
unknown type name is a hard build error — and the slot index in the low 5
bits, both truncated by construct's `int_to_bin`) and the wire value. -/
def mdBuildChain : Value → Except BErr (List Nat)
  | vnil => .ok []
  | vmentry k t v r => do
    match metadata_types.indexOf? t with
    | none => .error .mapMiss
    | some tag => do
      let vb ← mdBuildValue tag v
      let rb ← mdBuildChain r
      .ok ((tag % 8 * 32 + k % 32) :: vb ++ rb)
  | _ => .error .typeErr

/-- Build the full `metadata` subconstruct from a dictionary value: the
entries in canonical order, with an empty dictionary encoded as the single
synthesized entry (slot 0, tag 0, value 0), followed by the Const 0x7f
terminator byte. -/
def buildMeta : Value → Except BErr (List Nat)
  | vmeta vnil => .ok [0, 0, 127]
  | vmeta es => do
    let bs ← mdBuildChain es
    .ok (bs ++ [127])
  | _ => .error .typeErr

/-- The schema combinators the packet registry uses.  Context-dependent
lambdas of the source (`lambda context: context["count"]` etc.) are
represented by the key they read; `MetaArray` appears in the registry only
with `UBInt32` and `items` element schemas, so those two shapes are their
own constructors. -/
inductive PCon where
  | uintC (w : Nat) (name : String)
  | sintC (w : Nat) (name : String)
  | floatC (w : Nat) (name : String)
  | enumC (w : Nat) (signed : Bool) (name : String) (table : List (String × Int))
  | boolC (name : String)
  | alphaC (name : String)
  | pascalC (name : String) (lenW : Nat)
  | itemsE
  | arrayU32 (name key : String)
  | arrayItems (name key : String)
  | blobC (name key : String) (mult : Nat)
  | metaC (name : String)
  | structC (name : String) (body : PCon)
  | seqC (c rest : PCon)
  | nilC
deriving DecidableEq, Repr

/-- The integer a context lambda reads: the named binding, which the
schemas only consult after the corresponding count/length field has been
bound, so the default branch is unreachable on every registry schema. -/
def ctxNat (ctx : Value) (key : String) : Nat :=
  match blookup ctx key with
  | some (vint n) => n.toNat
  | _ => 0

/-- Parse `n` consecutive `items` Structs (the element loop of
`MetaArray(..., items)`); each element is its own container. -/
def parseItemsN : Nat → List Nat → Except PErr (Value × List Nat)
  | 0, b => .ok (vnil, b)
  | n + 1, b => do
    let (fs, r) ← parseItems b
    let (rest, r2) ← parseItemsN n r
    .ok (vcons (vrec fs) rest, r2)

/-- Parse `n` consecutive UBInt32 elements (the element loop of
`MetaArray(..., UBInt32(...))`). -/
def parseU32N : Nat → List Nat → Except PErr (Value × List Nat)
  | 0, b => .ok (vnil, b)
  | n + 1, b => do
    let (v, r) ← parseU 4 b
    let (rest, r2) ← parseU32N n r
    .ok (vcons (vint v) rest, r2)

/-- Parse one schema against a byte stream, threading the enclosing
Struct's context bindings (construct passes the accumulating container as
`context`; embedded groups share it, nested Structs start fresh).  Returns
the binding chain the schema contributes to the enclosing container. -/
def parseCon : PCon → Value → List Nat → Except PErr (Value × List Nat)
  | .uintC w n, _, b => do
    let (v, r) ← parseU w b
    .ok (vfield n (vint v) vnil, r)
  | .sintC w n, _, b => do
    let (v, r) ← parseS w b
    .ok (vfield n (vint v) vnil, r)
  | .floatC w n, _, b => do
    let (bs, r) ← readBytes w b
    .ok (vfield n (vbytes bs) vnil, r)
  | .enumC w signed n table, _, b => do
    let (v, r) ← (if signed then parseS w b else parseU w b)
    match table.find? (fun p => p.2 = v) with
    | some p => .ok (vfield n (vsym p.1) vnil, r)
    | none => .error .mapMiss
  | .boolC n, _, b => do
    let (bs, r) ← readBytes 1 b
    .ok (vfield n (vbool (bs ≠ [0])) vnil, r)
  | .alphaC n, _, b => do
    let (v, r) ← parseAlpha b
    .ok (vfield n v vnil, r)
  | .pascalC n lenW, _, b => do
    let (v, r) ← parsePascal lenW b
    .ok (vfield n v vnil, r)
  | .itemsE, _, b => parseItems b
  | .arrayU32 n key, ctx, b => do
    let (vs, r) ← parseU32N (ctxNat ctx key) b
    .ok (vfield n (vlist vs) vnil, r)
  | .arrayItems n key, ctx, b => do
    let (vs, r) ← parseItemsN (ctxNat ctx key) b
    .ok (vfield n (vlist vs) vnil, r)
  | .blobC n key mult, ctx, b => do
    let (bs, r) ← readBytes (ctxNat ctx key * mult) b
    .ok (vfield n (vbytes bs) vnil, r)
  | .metaC n, _, b => do
    let (v, r) ← parseMeta b
    .ok (vfield n v vnil, r)
  | .structC n body, _, b => do
    let (fs, r) ← parseCon body vnil b
    .ok (vfield n (vrec fs) vnil, r)
  | .seqC c rest, ctx, b => do
    let (fs, r) ← parseCon c ctx b
    let (fs2, r2) ← parseCon rest (bappend ctx fs) r
    .ok (bappend fs fs2, r2)
  | .nilC, _, b => .ok (vnil, b)

/-- Length of a `vcons` chain. -/
def vclen : Value → Nat
  | vcons _ t => vclen t + 1
  | _ => 0

/-- Build `items` elements of a `MetaArray(..., items)` in sequence. -/
def buildItemsN : Value → Except BErr (List Nat)
  | vnil => .ok []
  | vcons (vrec fs) t => do
    let eb ← buildItems fs
    let tb ← buildItemsN t
    .ok (eb ++ tb)
  | _ => .error .typeErr

/-- Build UBInt32 elements of a `MetaArray(..., UBInt32(...))`. -/
def buildU32N : Value → Except BErr (List Nat)
  | vnil => .ok []
  | vcons v t => do
    let eb ← buildU 4 v
    let tb ← buildU32N t
    .ok (eb ++ tb)
  | _ => .error .typeErr

/-- Build one schema from the container `obj`.  Context lambdas on the
build side read the same sibling fields of `obj` that the parse side reads;
the registry's count/length keys always precede their arrays, so reading
`obj` coincides with construct's accumulated build context. -/
def buildCon : PCon → Value → Except BErr (List Nat)
  | .uintC w n, obj =>
    match blookup obj n with
    | some v => buildU w v
    | none => .error .missingField
  | .sintC w n, obj =>
    match blookup obj n with
    | some v => buildS w v
    | none => .error .missingField
  | .floatC w n, obj =>
    match blookup obj n with
    | some (vbytes bs) => if bs.length = w then .ok bs else .error .typeErr
    | some _ => .error .typeErr
    | none => .error .missingField
  | .enumC w signed n table, obj =>
    match blookup obj n with
    | some (vsym s) =>
      match table.lookup s with
      | some v => if signed then buildS w (vint v) else buildU w (vint v)
      | none => .error .mapMiss
    | some _ => .error .typeErr
    | none => .error .missingField
  | .boolC n, obj =>
    match blookup obj n with
    | some (vbool true) => .ok [1]
    | some (vbool false) => .ok [0]
    | some _ => .error .typeErr
    | none => .error .missingField
  | .alphaC n, obj =>
    match blookup obj n with
    | some v => buildAlpha v
    | none => .error .missingField
  | .pascalC n lenW, obj =>
    match blookup obj n with
    | some v => buildPascal lenW v
    | none => .error .missingField
  | .itemsE, obj => buildItems obj
  | .arrayU32 n key, obj =>
    match blookup obj n with
    | some (vlist vs) =>
      if vclen vs = ctxNat obj key then buildU32N vs else .error .lenMism
    | some _ => .error .typeErr
    | none => .error .missingField
  | .arrayItems n key, obj =>
    match blookup obj n with
    | some (vlist vs) =>
      if vclen vs = ctxNat obj key then buildItemsN vs else .error .lenMism
    | some _ => .error .typeErr
    | none => .error .missingField
  | .blobC n key mult, obj =>
    match blookup obj n with
    | some (vbytes bs) =>
      if bs.length = ctxNat obj key * mult then .ok bs else .error .lenMism
    | some _ => .error .typeErr
    | none => .error .missingField
  | .metaC n, obj =>
    match blookup obj n with
    | some v => buildMeta v
    | none => .error .missingField
  | .structC n body, obj =>
    match blookup obj n with
    | some (vrec fs) => buildCon body fs
    | some _ => .error .typeErr
    | none => .error .missingField
  | .seqC c rest, obj => do
    let cb ← buildCon c obj
    let rb ← buildCon rest obj
    .ok (cb ++ rb)
  | .nilC, _ => .ok []

/-- Constructor helpers named as in the source module. -/
def UBInt8 (n : String) : PCon := .uintC 1 n

def UBInt16 (n : String) : PCon := .uintC 2 n

def UBInt32 (n : String) : PCon := .uintC 4 n

def UBInt64 (n : String) : PCon := .uintC 8 n

def SBInt8 (n : String) : PCon := .sintC 1 n

def SBInt16 (n : String) : PCon := .sintC 2 n

def SBInt32 (n : String) : PCon := .sintC 4 n

def BFloat32 (n : String) : PCon := .floatC 4 n

def BFloat64 (n : String) : PCon := .floatC 8 n

def AlphaString (n : String) : PCon := .alphaC n

/-- The `Bool` converter in the source: `Flag(..., default=True)`. -/
def BoolCon (n : String) : PCon := .boolC n

/-- `Struct(name, *fields)`. -/
def Struct (n : String) (fields : List PCon) : PCon :=
  .structC n (fields.foldr .seqC .nilC)

/-- `Enum(intfield, **table)`: wraps a UBInt or SBInt field. -/
def Enum (sub : PCon) (table : List (String × Int)) : PCon :=
  match sub with
  | .uintC w n => .enumC w false n table
  | .sintC w n => .enumC w true n table
  | c => c

/-- The `metadata` subconstruct. -/
def metadata : PCon := .metaC "metadata"

/-- Flying, position, and orientation structures, reused in several
packets (packets.py lines 89-96). -/
def grounded : PCon := Struct "grounded" [UBInt8 "grounded"]

def position : PCon := Struct "position"
  [BFloat64 "x", BFloat64 "y", BFloat64 "stance", BFloat64 "z"]

def orientation : PCon := Struct "orientation"
  [BFloat32 "rotation", BFloat32 "pitch"]

/-- Build/dig face enumeration. -/
def faces : List (String × Int) :=
  [("noop", -1), ("-y", 0), ("+y", 1), ("-z", 2), ("+z", 3), ("-x", 4), ("+x", 5)]

def face : PCon := Enum (SBInt8 "face") faces

/-- World dimension enumeration. -/
def dimensions : List (String × Int) :=
  [("earth", 0), ("sky", 1), ("nether", 255)]

def dimension : PCon := Enum (UBInt8 "dimension") dimensions

/-- Difficulty levels. -/
def difficulties : List (String × Int) :=
  [("peaceful", 0), ("easy", 1), ("normal", 2), ("hard", 3)]

def difficulty : PCon := Enum (UBInt8 "difficulty") difficulties

def modes : List (String × Int) :=
  [("survival", 0), ("creative", 1), ("adventure", 2)]

def mode : PCon := Enum (UBInt8 "mode") modes

/-- Possible effects. -/
def effect : PCon := Enum (UBInt8 "effect")
  [("move_fast", 1), ("move_slow", 2), ("dig_fast", 3), ("dig_slow", 4),
   ("damage_boost", 5), ("heal", 6), ("harm", 7), ("jump", 8),
   ("confusion", 9), ("regenerate", 10), ("resistance", 11),
   ("fire_resistance", 12), ("water_resistance", 13), ("invisibility", 14),
   ("blindness", 15), ("night_vision", 16), ("hunger", 17),
   ("weakness", 18), ("poison", 19), ("wither", 20)]

/-- The actual packet list (packets.py lines 238-799). -/
def packets : List (Nat × PCon) := [
  (0, Struct "ping" [UBInt32 "pid"]),
  (1, Struct "login" [
    UBInt32 "eid",
    AlphaString "leveltype",
    mode,
    dimension,
    difficulty,
    UBInt8 "unused",
    UBInt8 "maxplayers"]),
  (2, Struct "handshake" [
    UBInt8 "protocol",
    AlphaString "username",
    AlphaString "host",
    UBInt32 "port"]),
  (3, Struct "chat" [AlphaString "message"]),
  (4, Struct "time" [UBInt64 "timestamp", UBInt64 "time"]),
  (5, Struct "entity-equipment" [
    UBInt32 "eid",
    UBInt16 "slot",
    PCon.itemsE]),
  (6, Struct "spawn" [SBInt32 "x", SBInt32 "y", SBInt32 "z"]),
  (7, Struct "use" [UBInt32 "eid", UBInt32 "target", UBInt8 "button"]),
  (8, Struct "health" [UBInt16 "hp", UBInt16 "fp", BFloat32 "saturation"]),
  (9, Struct "respawn" [
    dimension,
    difficulty,
    mode,
    UBInt16 "height",
    AlphaString "leveltype"]),
  (10, grounded),
  (11, Struct "position" [position, grounded]),
  (12, Struct "orientation" [orientation, grounded]),
  (13, Struct "location" [position, orientation, grounded]),
  (14, Struct "digging" [
    Enum (UBInt8 "state")
      [("started", 0), ("cancelled", 1), ("stopped", 2), ("checked", 3),
       ("dropped", 4), ("shooting", 5)],
    SBInt32 "x",
    UBInt8 "y",
    SBInt32 "z",
    face]),
  (15, Struct "build" [
    SBInt32 "x",
    UBInt8 "y",
    SBInt32 "z",
    face,
    PCon.itemsE,
    UBInt8 "cursorx",
    UBInt8 "cursory",
    UBInt8 "cursorz"]),
  (16, Struct "equip" [UBInt16 "slot"]),
  (17, Struct "bed" [
    UBInt32 "eid",
    UBInt8 "unknown",
    SBInt32 "x",
    UBInt8 "y",
    SBInt32 "z"]),
  (18, Struct "animate" [
    UBInt32 "eid",
    Enum (UBInt8 "animation")
      [("noop", 0), ("arm", 1), ("hit", 2), ("leave_bed", 3), ("eat", 5),
       ("unknown", 102), ("crouch", 104), ("uncrouch", 105)]]),
  (19, Struct "action" [
    UBInt32 "eid",
    Enum (UBInt8 "action")
      [("crouch", 1), ("uncrouch", 2), ("leave_bed", 3),
       ("start_sprint", 4), ("stop_sprint", 5)]]),
  (20, Struct "player" [
    UBInt32 "eid",
    AlphaString "username",
    SBInt32 "x",
    SBInt32 "y",
    SBInt32 "z",
    UBInt8 "yaw",
    UBInt8 "pitch",
    SBInt16 "item",
    metadata]),
  (21, Struct "pickup" [
    UBInt32 "eid",
    PCon.itemsE,
    SBInt32 "x",
    SBInt32 "y",
    SBInt32 "z",
    UBInt8 "yaw",
    UBInt8 "pitch",
    UBInt8 "roll"]),
  (22, Struct "collect" [UBInt32 "eid", UBInt32 "destination"]),
  (23, Struct "vehicle" [
    UBInt32 "eid",
    Enum (UBInt8 "type")
      [("boat", 1), ("minecart", 10), ("storage_cart", 11),
       ("powered_cart", 12), ("tnt", 50), ("ender_crystal", 51),
       ("arrow", 60), ("snowball", 61), ("egg", 62),
       ("thrown_enderpearl", 65), ("wither_skull", 66),
       ("falling_block", 70), ("ender_eye", 72), ("thrown_potion", 73),
       ("dragon_egg", 74), ("thrown_xp_bottle", 75), ("fishing_float", 90)],
    SBInt32 "x",
    SBInt32 "y",
    SBInt32 "z",
    SBInt32 "data",
    SBInt16 "speedx",
    SBInt16 "speedy",
    SBInt16 "speedz"]),
  (24, Struct "mob" [
    UBInt32 "eid",
    Enum (UBInt8 "type")
      [("Creeper", 50), ("Skeleton", 51), ("Spider", 52),
       ("GiantZombie", 53), ("Zombie", 54), ("Slime", 55), ("Ghast", 56),
       ("ZombiePig", 57), ("Enderman", 58), ("CaveSpider", 59),
       ("Silverfish", 60), ("Blaze", 61), ("MagmaCube", 62),
       ("EnderDragon", 63), ("Wither", 64), ("Bat", 65), ("Witch", 66),
       ("Pig", 90), ("Sheep", 91), ("Cow", 92), ("Chicken", 93),
       ("Squid", 94), ("Wolf", 95), ("Mooshroom", 96), ("Snowman", 97),
       ("Ocelot", 98), ("IronGolem", 99), ("Villager", 120)],
    SBInt32 "x",
    SBInt32 "y",
    SBInt32 "z",
    SBInt8 "yaw",
    SBInt8 "pitch",
    SBInt8 "head_yaw",
    SBInt16 "vx",
    SBInt16 "vy",
    SBInt16 "vz",
    metadata]),
  (25, Struct "painting" [
    UBInt32 "eid",
    AlphaString "title",
    SBInt32 "x",
    SBInt32 "y",
    SBInt32 "z",
    face]),
  (26, Struct "experience" [
    UBInt32 "eid",
    SBInt32 "x",
    SBInt32 "y",
    SBInt32 "z",
    UBInt16 "quantity"]),
  (28, Struct "velocity" [
    UBInt32 "eid",
    SBInt16 "dx",
    SBInt16 "dy",
    SBInt16 "dz"]),
  (29, Struct "destroy" [
    UBInt8 "count",
    PCon.arrayU32 "eid" "count"]),
  (30, Struct "create" [UBInt32 "eid"]),
  (31, Struct "entity-position" [
    UBInt32 "eid",
    SBInt8 "dx",
    SBInt8 "dy",
    SBInt8 "dz"]),
  (32, Struct "entity-orientation" [
    UBInt32 "eid",
    UBInt8 "yaw",
    UBInt8 "pitch"]),
  (33, Struct "entity-location" [
    UBInt32 "eid",
    SBInt8 "dx",
    SBInt8 "dy",
    SBInt8 "dz",
    UBInt8 "yaw",
    UBInt8 "pitch"]),
  (34, Struct "teleport" [
    UBInt32 "eid",
    SBInt32 "x",
    SBInt32 "y",
    SBInt32 "z",
    UBInt8 "yaw",
    UBInt8 "pitch"]),
  (35, Struct "entity-head" [UBInt32 "eid", UBInt8 "yaw"]),
  (38, Struct "status" [
    UBInt32 "eid",
    Enum (UBInt8 "status")
      [("damaged", 2), ("killed", 3), ("taming", 6), ("tamed", 7),
       ("drying", 8), ("eating", 9), ("sheep_eat", 10)]]),
  (39, Struct "attach" [UBInt32 "eid", UBInt32 "vid"]),
  (40, Struct "metadata" [UBInt32 "eid", metadata]),
  (41, Struct "effect" [
    UBInt32 "eid",
    effect,
    UBInt8 "amount",
    UBInt16 "duration"]),
  (42, Struct "uneffect" [UBInt32 "eid", effect]),
  (43, Struct "levelup" [
    BFloat32 "current",
    UBInt16 "level",
    UBInt16 "total"]),
  (51, Struct "chunk" [
    SBInt32 "x",
    SBInt32 "z",
    BoolCon "continuous",
    UBInt16 "primary",
    UBInt16 "add",
    PCon.pascalC "data" 4]),
  (52, Struct "batch" [
    SBInt32 "x",
    SBInt32 "z",
    UBInt16 "count",
    PCon.pascalC "data" 4]),
  (53, Struct "block" [
    SBInt32 "x",
    UBInt8 "y",
    SBInt32 "z",
    UBInt16 "type",
    UBInt8 "meta"]),
  (54, Struct "block-action" [
    SBInt32 "x",
    SBInt16 "y",
    SBInt32 "z",
    UBInt8 "byte1",
    UBInt8 "byte2",
    UBInt16 "blockid"]),
  (55, Struct "block-break-anim" [
    UBInt32 "eid",
    UBInt32 "x",
    UBInt32 "y",
    UBInt32 "z",
    UBInt8 "stage"]),
  (56, Struct "bulk-chunk" [UBInt16 "count"]),
  (60, Struct "explosion" [
    BFloat64 "x",
    BFloat64 "y",
    BFloat64 "z",
    BFloat32 "radius",
    UBInt32 "count",
    PCon.blobC "blocks" "count" 3,
    BFloat32 "motionx",
    BFloat32 "motiony",
    BFloat32 "motionz"]),
  (61, Struct "sound" [
    Enum (UBInt32 "sid")
      [("click2", 1000), ("click1", 1001), ("bow_fire", 1002),
       ("door_toggle", 1003), ("extinguish", 1004), ("record_play", 1005),
       ("charge", 1007), ("fireball", 1008), ("zombie_wood", 1010),
       ("zombie_metal", 1011), ("zombie_break", 1012), ("wither", 1013),
       ("smoke", 2000), ("block_break", 2001), ("splash_potion", 2002),
       ("ender_eye", 2003), ("blaze", 2004)],
    SBInt32 "x",
    UBInt8 "y",
    SBInt32 "z",
    UBInt32 "data",
    BoolCon "volume-mod"]),
  (62, Struct "named-sound" [
    AlphaString "name",
    UBInt32 "x",
    UBInt32 "y",
    UBInt32 "z",
    BFloat32 "volume",
    UBInt8 "pitch"]),
  (70, Struct "state" [
    Enum (UBInt8 "state")
      [("bad_bed", 0), ("start_rain", 1), ("stop_rain", 2),
       ("mode_change", 3), ("run_credits", 4)],
    mode]),
  (71, Struct "thunderbolt" [
    UBInt32 "eid",
    UBInt8 "gid",
    SBInt32 "x",
    SBInt32 "y",
    SBInt32 "z"]),
  (100, Struct "window-open" [
    UBInt8 "wid",
    Enum (UBInt8 "type")
      [("chest", 0), ("workbench", 1), ("furnace", 2), ("dispenser", 3),
       ("enchatment_table", 4), ("brewing_stand", 5)],
    AlphaString "title",
    UBInt8 "slots"]),
  (101, Struct "window-close" [UBInt8 "wid"]),
  (102, Struct "window-action" [
    UBInt8 "wid",
    UBInt16 "slot",
    UBInt8 "button",
    UBInt16 "token",
    BoolCon "shift",
    PCon.itemsE]),
  (103, Struct "window-slot" [
    UBInt8 "wid",
    UBInt16 "slot",
    PCon.itemsE]),
  (104, Struct "inventory" [
    UBInt8 "wid",
    UBInt16 "length",
    PCon.arrayItems "items" "length"]),
  (105, Struct "window-progress" [
    UBInt8 "wid",
    UBInt16 "bar",
    UBInt16 "progress"]),
  (106, Struct "window-token" [
    UBInt8 "wid",
    UBInt16 "token",
    BoolCon "acknowledged"]),
  (107, Struct "window-creative" [
    UBInt16 "slot",
    PCon.itemsE]),
  (108, Struct "enchant" [UBInt8 "wid", UBInt8 "enchantment"]),
  (130, Struct "sign" [
    SBInt32 "x",
    UBInt16 "y",
    SBInt32 "z",
    AlphaString "line1",
    AlphaString "line2",
    AlphaString "line3",
    AlphaString "line4"]),
  (131, Struct "map" [
    UBInt16 "type",
    UBInt16 "itemid",
    PCon.pascalC "data" 1]),
  (132, Struct "tile-update" [
    SBInt32 "x",
    UBInt16 "y",
    SBInt32 "z",
    UBInt8 "action"]),
  (200, Struct "statistics" [UBInt32 "sid", UBInt8 "count"]),
  (201, Struct "players" [
    AlphaString "name",
    BoolCon "online",
    UBInt16 "ping"]),
  (202, Struct "abilities" [
    UBInt8 "flags",
    UBInt8 "fly-speed",
    UBInt8 "walk-speed"]),
  (203, Struct "tab" [AlphaString "autocomplete"]),
  (204, Struct "settings" [
    AlphaString "locale",
    UBInt8 "distance",
    UBInt8 "chat",
    difficulty,
    BoolCon "cape"]),
  (205, Struct "statuses" [UBInt8 "payload"]),
  (250, Struct "plugin-message" [
    AlphaString "channel",
    UBInt16 "length"]),
  (252, Struct "key-response" [
    UBInt16 "shared-len",
    UBInt16 "token-len"]),
  (253, Struct "key-request" [
    AlphaString "server",
    UBInt16 "key-len",
    UBInt16 "token-len"]),
  (254, Struct "poll" [UBInt8 "unused"]),
  (255, Struct "error" [AlphaString "message"])]

/-- Name of a packet schema (`v.name` of the top-level Struct). -/
def conName : PCon → String
  | .structC n _ => n
  | _ => ""

/-- Body (field sequence) of a packet schema. -/
def conBody : PCon → PCon
  | .structC _ b => b
  | c => c

/-- Opcode lookup in the packet registry (the `Switch` case table). -/
def lookupPacket (h : Nat) : Option PCon :=
  (packets.find? (fun kc => kc.1 = h)).map (·.2)

/-- The derived name-to-opcode index
`dict((v.name, k) for (k, v) in packets.iteritems())`. -/
def packets_by_name : List (String × Nat) :=
  packets.map (fun kc => (conName kc.2, kc.1))

/-- Dict lookup in `packets_by_name`: with successive assignment a later
pair of the same name would win, hence the last match. -/
def lookupName (s : String) : Option Nat :=
  packets_by_name.foldl (fun acc p => if p.1 = s then some p.2 else acc) none

/-- One `full_packet` Struct of the stream drivers: the UBInt8 `header`
opcode byte, then the `Switch` on the registry (a missing case is
construct's SwitchError); the payload is the selected packet's container. -/
def parseFullPacket (b : List Nat) : Except PErr ((Nat × Value) × List Nat) :=
  match b with
  | [] => .error .fieldShort
  | h :: r =>
    match lookupPacket h with
    | none => .error .switchMiss
    | some c => do
      let (fs, r2) ← parseCon (conBody c) vnil r
      .ok ((h, vrec fs), r2)

/-- The `OptionalGreedyRange(full_packet)` loop of `packet_stream`: parse
packets until one attempt raises a ConstructError, then seek back to the
start of the failed attempt; the second greedy range returns the remaining
bytes verbatim as leftovers.  Each successful packet consumes at least the
opcode byte, so fuel `b.length + 1` is never exhausted. -/
def bulkLoop : Nat → List Nat → List (Nat × Value) × List Nat
  | 0, b => ([], b)
  | f + 1, b =>
    match parseFullPacket b with
    | .error _ => ([], b)
    | .ok (p, r) =>
      let (ps, rest) := bulkLoop f r
      (p :: ps, rest)

/-- `parse_packets` (packets.py lines 813-832): opportunistically parse as
many packets as possible; returns the parsed (header, payload) pairs and
the leftover bytes. -/
def parse_packets (b : List Nat) : List (Nat × Value) × List Nat :=
  bulkLoop (b.length + 1) b

/-- The loop of `parse_packets_incrementally` (packets.py lines 844-863):
while the bytestream is non-empty, parse one `incremental_packet_stream`
(whose `full_packet` is mandatory, so its errors propagate to the caller)
and continue on the leftovers.  The second component records the error the
generator raises, `none` meaning clean exhaustion. -/
def incLoop : Nat → List Nat → List (Nat × Value) × Option PErr
  | 0, _ => ([], none)
  | f + 1, b =>
    if b = [] then ([], none)
    else
      match parseFullPacket b with
      | .error e => ([], some e)
      | .ok (p, r) =>
        let (ps, e) := incLoop f r
        (p :: ps, e)

/-- `parse_packets_incrementally`: the yielded (header, payload) pairs, and
the error that terminates the generator if the final leftover is non-empty
but not a parseable packet. -/
def parse_packets_incrementally (b : List Nat) : List (Nat × Value) × Option PErr :=
  incLoop (b.length + 1) b

/-- The `kwargs.update(dict(arg))` loop of `make_packet`: fold the extra
positional field sources into the keyword container, in call order. -/
def mergeSources (kwargs : Value) (args : List (List (String × Value))) : Value :=
  args.foldl dictUpdate kwargs

/-- `make_packet` (packets.py lines 867-890): an unknown packet name
returns the empty bytestream (after printing, which we drop); otherwise the
payload container is built against the schema and prefixed with the opcode
byte.  Build failures for a known name propagate as exceptions in the
source and are the `.error` results here. -/
def make_packet (packet : String) (args : List (List (String × Value)))
    (kwargs : Value) : Except BErr (List Nat) :=
  match lookupName packet with
  | none => .ok []
  | some header =>
    match lookupPacket header with
    | none => .error .typeErr
    | some c => do
      let payload ← buildCon (conBody c) (mergeSources kwargs args)
      .ok (header :: payload)

/-- `make_error_packet`: convenience error packet builder. -/
def make_error_packet (message : Value) : Except BErr (List Nat) :=
  make_packet "error" [] (vfield "message" message vnil)

/-- A canonical valid payload for each schema, used as the per-opcode
round-trip fixture: zero integers, first enum symbol, empty strings and
blobs, empty arrays with zero counts, a one-entry metadata dictionary, and
a present (primary = 0) item group. -/
def defFields : PCon → Value
  | .uintC _ n => vfield n (vint 0) vnil
  | .sintC _ n => vfield n (vint 0) vnil
  | .floatC w n => vfield n (vbytes (List.replicate w 0)) vnil
  | .enumC _ _ n table => vfield n (vsym ((table.headI).1)) vnil
  | .boolC n => vfield n (vbool false) vnil
  | .alphaC n => vfield n (vstr []) vnil
  | .pascalC n _ => vfield n (vbytes []) vnil
  | .itemsE => vfield "primary" (vint 0) (vfield "count" (vint 0)
      (vfield "secondary" (vint 0) vnil))
  | .arrayU32 n _ => vfield n (vlist vnil) vnil
  | .arrayItems n _ => vfield n (vlist vnil) vnil
  | .blobC n _ _ => vfield n (vbytes []) vnil
  | .metaC n => vfield n (vmeta (vmentry 1 "byte" (vint 0) vnil)) vnil
  | .structC n body => vfield n (vrec (defFields body)) vnil
  | .seqC c rest => bappend (defFields c) (defFields rest)
  | .nilC => vnil

/-- Ordering of extra field sources for the merge lemma: later positional
sources are deeper in the list, and within one source later pairs win, so
this is the value Python dict-update semantics leaves for a key. -/
def lastSourceVal : List (List (String × Value)) → String → Option Value
  | [], _ => none
  | src :: t, k =>
    match lastSourceVal t k with
    | some v => some v
    | none => lastVal src k

/-- The encoded bytes of the canonical fixture payload of a schema. -/
def fixtureBytes (c : PCon) : List Nat :=
  (make_packet (conName c) [] (defFields (conBody c))).toOption.getD []

/-- Both round-trip directions on the canonical fixture of opcode `k`:
building the fixture payload succeeds and is non-empty, and bulk-parsing
the produced bytes returns exactly that (opcode, payload) pair; re-encoding
the decoded payload therefore reproduces the bytes byte-exactly. -/
def rtOK (k : Nat) (c : PCon) : Prop :=
  make_packet (conName c) [] (defFields (conBody c)) = .ok (fixtureBytes c) ∧
  fixtureBytes c ≠ [] ∧
  parse_packets (fixtureBytes c) = ([(k, vrec (defFields (conBody c)))], [])

instance (k : Nat) (c : PCon) : Decidable (rtOK k c) := by
  unfold rtOK
  infer_instance

@[simp] theorem except_bind_ok {α β ε : Type} (a : α) (f : α → Except ε β) :
    (Except.ok a >>= f) = f a := rfl

@[simp] theorem except_bind_error {α β ε : Type} (e : ε) (f : α → Except ε β) :
    ((Except.error e : Except ε α) >>= f) = .error e := rfl

theorem readBytes_append {n : Nat} {b s bs r : List Nat}
    (h : readBytes n b = .ok (bs, r)) : readBytes n (b ++ s) = .ok (bs, r ++ s) := by
  unfold readBytes at h ⊢
  split at h
  · rename_i hle
    rw [Except.ok.injEq, Prod.mk.injEq] at h
    obtain ⟨h1, h2⟩ := h
    subst h1 h2
    rw [if_pos (by simp; omega)]
    rw [List.take_append_of_le_length hle, List.drop_append_of_le_length hle]
  · exact absurd h (by simp)

theorem readBytes_len {n : Nat} {b bs r : List Nat}
    (h : readBytes n b = .ok (bs, r)) : r.length = b.length - n ∧ n ≤ b.length := by
  unfold readBytes at h
  split at h
  · rename_i hle
    rw [Except.ok.injEq, Prod.mk.injEq] at h
    obtain ⟨h1, h2⟩ := h
    subst h2
    simp [hle]
  · exact absurd h (by simp)

theorem parseU_append {w : Nat} {b s : List Nat} {v : Int} {r : List Nat}
    (h : parseU w b = .ok (v, r)) : parseU w (b ++ s) = .ok (v, r ++ s) := by
  unfold parseU at h ⊢
  cases hr : readBytes w b with
  | error e => rw [hr] at h; simp at h
  | ok p =>
    obtain ⟨bs, rr⟩ := p
    rw [hr] at h
    rw [readBytes_append hr]
    simpa using h

theorem parseU_len {w : Nat} {b : List Nat} {v : Int} {r : List Nat}
    (h : parseU w b = .ok (v, r)) : r.length + w = b.length := by
  unfold parseU at h
  cases hr : readBytes w b with
  | error e => rw [hr] at h; simp at h
  | ok p =>
    obtain ⟨bs, rr⟩ := p
    rw [hr] at h
    simp at h
    obtain ⟨hv, hrr⟩ := h
    subst hrr
    obtain ⟨h1, h2⟩ := readBytes_len hr
    omega

theorem parseS_append {w : Nat} {b s : List Nat} {v : Int} {r : List Nat}
    (h : parseS w b = .ok (v, r)) : parseS w (b ++ s) = .ok (v, r ++ s) := by
  unfold parseS at h ⊢
  cases hr : readBytes w b with
  | error e => rw [hr] at h; simp at h
  | ok p =>
    obtain ⟨bs, rr⟩ := p
    rw [hr] at h
    rw [readBytes_append hr]
    simpa using h

theorem parseS_len {w : Nat} {b : List Nat} {v : Int} {r : List Nat}
    (h : parseS w b = .ok (v, r)) : r.length + w = b.length := by
  unfold parseS at h
  cases hr : readBytes w b with
  | error e => rw [hr] at h; simp at h
  | ok p =>
    obtain ⟨bs, rr⟩ := p
    rw [hr] at h
    simp at h
    obtain ⟨hv, hrr⟩ := h
    subst hrr
    obtain ⟨h1, h2⟩ := readBytes_len hr
    omega

theorem parseAlpha_append {b s : List Nat} {v : Value} {r : List Nat}
    (h : parseAlpha b = .ok (v, r)) : parseAlpha (b ++ s) = .ok (v, r ++ s) := by
  unfold parseAlpha at h ⊢
  cases h1 : parseU 2 b with
  | error e => rw [h1] at h; simp at h
  | ok p =>
    obtain ⟨len, r1⟩ := p
    rw [h1] at h
    rw [parseU_append h1]
    simp only [except_bind_ok] at h ⊢
    cases h2 : readBytes (len.toNat * 2) r1 with
    | error e => rw [h2] at h; simp at h
    | ok q =>
      obtain ⟨data, r2⟩ := q
      rw [h2] at h
      rw [readBytes_append h2]
      simpa using h

theorem parseAlpha_len {b : List Nat} {v : Value} {r : List Nat}
    (h : parseAlpha b = .ok (v, r)) : r.length ≤ b.length := by
  unfold parseAlpha at h
  cases h1 : parseU 2 b with
  | error e => rw [h1] at h; simp at h
  | ok p =>
    obtain ⟨len, r1⟩ := p
    rw [h1] at h
    simp only [except_bind_ok] at h
    cases h2 : readBytes (len.toNat * 2) r1 with
    | error e => rw [h2] at h; simp at h
    | ok q =>
      obtain ⟨data, r2⟩ := q
      rw [h2] at h
      simp at h
      obtain ⟨hv, hrr⟩ := h
      subst hrr
      have ha := parseU_len h1
      obtain ⟨hb, hc⟩ := readBytes_len h2
      omega

theorem parsePascal_append {lenW : Nat} {b s : List Nat} {v : Value} {r : List Nat}
    (h : parsePascal lenW b = .ok (v, r)) : parsePascal lenW (b ++ s) = .ok (v, r ++ s) := by
  unfold parsePascal at h ⊢
  cases h1 : parseU lenW b with
  | error e => rw [h1] at h; simp at h
  | ok p =>
    obtain ⟨len, r1⟩ := p
    rw [h1] at h
    rw [parseU_append h1]
    simp only [except_bind_ok] at h ⊢
    cases h2 : readBytes len.toNat r1 with
    | error e => rw [h2] at h; simp at h
    | ok q =>
      obtain ⟨data, r2⟩ := q
      rw [h2] at h
      rw [readBytes_append h2]
      simpa using h

theorem parsePascal_len {lenW : Nat} {b : List Nat} {v : Value} {r : List Nat}
    (h : parsePascal lenW b = .ok (v, r)) : r.length ≤ b.length := by
  unfold parsePascal at h
  cases h1 : parseU lenW b with
  | error e => rw [h1] at h; simp at h
  | ok p =>
    obtain ⟨len, r1⟩ := p
    rw [h1] at h
    simp only [except_bind_ok] at h
    cases h2 : readBytes len.toNat r1 with
    | error e => rw [h2] at h; simp at h
    | ok q =>
      obtain ⟨data, r2⟩ := q
      rw [h2] at h
      simp at h
      obtain ⟨hv, hrr⟩ := h
      subst hrr
      have ha := parseU_len h1
      obtain ⟨hb, hc⟩ := readBytes_len h2
      omega

theorem parseItems_append {b s : List Nat} {fs : Value} {r : List Nat}
    (h : parseItems b = .ok (fs, r)) : parseItems (b ++ s) = .ok (fs, r ++ s) := by
  unfold parseItems at h ⊢
  cases h1 : parseS 2 b with
  | error e => rw [h1] at h; simp at h
  | ok p =>
    obtain ⟨pv, r1⟩ := p
    rw [h1] at h
    rw [parseS_append h1]
    simp only [except_bind_ok] at h ⊢
    by_cases hp : (0 : Int) ≤ pv
    · rw [if_pos hp] at h ⊢
      cases h2 : parseU 1 r1 with
      | error e => rw [h2] at h; simp at h
      | ok q =>
        obtain ⟨cv, r2⟩ := q
        rw [h2] at h
        rw [parseU_append h2]
        simp only [except_bind_ok] at h ⊢
        cases h3 : parseU 2 r2 with
        | error e => rw [h3] at h; simp at h
        | ok q2 =>
          obtain ⟨sv, r3⟩ := q2
          rw [h3] at h
          rw [parseU_append h3]
          simp only [except_bind_ok] at h ⊢
          cases h4 : readBytes 2 r3 with
          | error e => rw [h4] at h; simp at h
          | ok q3 =>
            obtain ⟨mv, r4⟩ := q3
            rw [h4] at h
            rw [readBytes_append h4]
            simp only [except_bind_ok] at h ⊢
            by_cases hm : mv = [255, 255]
            · rw [if_pos hm] at h ⊢
              simpa using h
            · rw [if_neg hm] at h
              simp at h
    · rw [if_neg hp] at h ⊢
      simpa using h

theorem parseItems_len {b : List Nat} {fs : Value} {r : List Nat}
    (h : parseItems b = .ok (fs, r)) : r.length ≤ b.length := by
  unfold parseItems at h
  cases h1 : parseS 2 b with
  | error e => rw [h1] at h; simp at h
  | ok p =>
    obtain ⟨pv, r1⟩ := p
    rw [h1] at h
    simp only [except_bind_ok] at h
    have ha := parseS_len h1
    by_cases hp : (0 : Int) ≤ pv
    · rw [if_pos hp] at h
      cases h2 : parseU 1 r1 with
      | error e => rw [h2] at h; simp at h
      | ok q =>
        obtain ⟨cv, r2⟩ := q
        rw [h2] at h
        simp only [except_bind_ok] at h
        have hb := parseU_len h2
        cases h3 : parseU 2 r2 with
        | error e => rw [h3] at h; simp at h
        | ok q2 =>
          obtain ⟨sv, r3⟩ := q2
          rw [h3] at h
          simp only [except_bind_ok] at h
          have hc := parseU_len h3
          cases h4 : readBytes 2 r3 with
          | error e => rw [h4] at h; simp at h
          | ok q3 =>
            obtain ⟨mv, r4⟩ := q3
            rw [h4] at h
            simp only [except_bind_ok] at h
            obtain ⟨hd, he⟩ := readBytes_len h4
            by_cases hm : mv = [255, 255]
            · rw [if_pos hm] at h
              simp at h
              obtain ⟨hv, hrr⟩ := h
              subst hrr
              omega
            · rw [if_neg hm] at h
              simp at h
    · rw [if_neg hp] at h
      simp at h
      obtain ⟨hv, hrr⟩ := h
      subst hrr
      omega

theorem mdValue_append {tag : Nat} {b s : List Nat} {v : Value} {r : List Nat}
    (h : mdValue tag b = .ok (v, r)) : mdValue tag (b ++ s) = .ok (v, r ++ s) := by
  unfold mdValue at h ⊢
  split_ifs at h ⊢ with h0 h1 h2 h3 h4 h5 h6
  · cases hr : parseU 1 b with
    | error e => rw [hr] at h; simp at h
    | ok p =>
      obtain ⟨n, r1⟩ := p
      rw [hr] at h
      rw [parseU_append hr]
      simpa using h
  · cases hr : parseU 2 b with
    | error e => rw [hr] at h; simp at h
    | ok p =>
      obtain ⟨n, r1⟩ := p
      rw [hr] at h
      rw [parseU_append hr]
      simpa using h
  · cases hr : parseU 4 b with
    | error e => rw [hr] at h; simp at h
    | ok p =>
      obtain ⟨n, r1⟩ := p
      rw [hr] at h
      rw [parseU_append hr]
      simpa using h
  · cases hr : readBytes 4 b with
    | error e => rw [hr] at h; simp at h
    | ok p =>
      obtain ⟨bs, r1⟩ := p
      rw [hr] at h
      rw [readBytes_append hr]
      simpa using h
  · exact parseAlpha_append h
  · cases hr : parseU 2 b with
    | error e => rw [hr] at h; simp at h
    | ok p =>
      obtain ⟨pv, r1⟩ := p
      rw [hr] at h
      rw [parseU_append hr]
      simp only [except_bind_ok] at h ⊢
      cases hr2 : parseU 1 r1 with
      | error e => rw [hr2] at h; simp at h
      | ok q =>
        obtain ⟨cv, r2⟩ := q
        rw [hr2] at h
        rw [parseU_append hr2]
        simp only [except_bind_ok] at h ⊢
        cases hr3 : parseU 2 r2 with
        | error e => rw [hr3] at h; simp at h
        | ok q2 =>
          obtain ⟨sv, r3⟩ := q2
          rw [hr3] at h
          rw [parseU_append hr3]
          simpa using h
  · cases hr : parseU 4 b with
    | error e => rw [hr] at h; simp at h
    | ok p =>
      obtain ⟨xv, r1⟩ := p
      rw [hr] at h
      rw [parseU_append hr]
      simp only [except_bind_ok] at h ⊢
      cases hr2 : parseU 4 r1 with
      | error e => rw [hr2] at h; simp at h
      | ok q =>
        obtain ⟨yv, r2⟩ := q
        rw [hr2] at h
        rw [parseU_append hr2]
        simp only [except_bind_ok] at h ⊢
        cases hr3 : parseU 4 r2 with
        | error e => rw [hr3] at h; simp at h
        | ok q2 =>
          obtain ⟨zv, r3⟩ := q2
          rw [hr3] at h
          rw [parseU_append hr3]
          simpa using h

theorem mdValue_len {tag : Nat} {b : List Nat} {v : Value} {r : List Nat}
    (h : mdValue tag b = .ok (v, r)) : r.length ≤ b.length := by
  unfold mdValue at h
  split_ifs at h with h0 h1 h2 h3 h4 h5 h6
  · cases hr : parseU 1 b with
    | error e => rw [hr] at h; simp at h
    | ok p =>
      obtain ⟨n, r1⟩ := p
      rw [hr] at h
      simp at h
      obtain ⟨hv, hrr⟩ := h
      subst hrr
      have := parseU_len hr
      omega
  · cases hr : parseU 2 b with
    | error e => rw [hr] at h; simp at h
    | ok p =>
      obtain ⟨n, r1⟩ := p
      rw [hr] at h
      simp at h
      obtain ⟨hv, hrr⟩ := h
      subst hrr
      have := parseU_len hr
      omega
  · cases hr : parseU 4 b with
    | error e => rw [hr] at h; simp at h
    | ok p =>
      obtain ⟨n, r1⟩ := p
      rw [hr] at h
      simp at h
      obtain ⟨hv, hrr⟩ := h
      subst hrr
      have := parseU_len hr
      omega
  · cases hr : readBytes 4 b with
    | error e => rw [hr] at h; simp at h
    | ok p =>
      obtain ⟨bs, r1⟩ := p
      rw [hr] at h
      simp at h
      obtain ⟨hv, hrr⟩ := h
      subst hrr
      obtain ⟨ha, hb⟩ := readBytes_len hr
      omega
  · exact parseAlpha_len h
  · cases hr : parseU 2 b with
    | error e => rw [hr] at h; simp at h
    | ok p =>
      obtain ⟨pv, r1⟩ := p
      rw [hr] at h
      simp only [except_bind_ok] at h
      have ha := parseU_len hr
      cases hr2 : parseU 1 r1 with
      | error e => rw [hr2] at h; simp at h
      | ok q =>
        obtain ⟨cv, r2⟩ := q
        rw [hr2] at h
        simp only [except_bind_ok] at h
        have hb := parseU_len hr2
        cases hr3 : parseU 2 r2 with
        | error e => rw [hr3] at h; simp at h
        | ok q2 =>
          obtain ⟨sv, r3⟩ := q2
          rw [hr3] at h
          simp at h
          obtain ⟨hv, hrr⟩ := h
          subst hrr
          have hc := parseU_len hr3
          omega
  · cases hr : parseU 4 b with
    | error e => rw [hr] at h; simp at h
    | ok p =>
      obtain ⟨xv, r1⟩ := p
      rw [hr] at h
      simp only [except_bind_ok] at h
      have ha := parseU_len hr
      cases hr2 : parseU 4 r1 with
      | error e => rw [hr2] at h; simp at h
      | ok q =>
        obtain ⟨yv, r2⟩ := q
        rw [hr2] at h
        simp only [except_bind_ok] at h
        have hb := parseU_len hr2
        cases hr3 : parseU 4 r2 with
        | error e => rw [hr3] at h; simp at h
        | ok q2 =>
          obtain ⟨zv, r3⟩ := q2
          rw [hr3] at h
          simp at h
          obtain ⟨hv, hrr⟩ := h
          subst hrr
          have hc := parseU_len hr3
          omega

theorem mdEntry_append {b s : List Nat} {e : Nat × String × Value} {r : List Nat}
    (h : mdEntry b = .ok (e, r)) : mdEntry (b ++ s) = .ok (e, r ++ s) := by
  unfold mdEntry at h ⊢
  cases hr : readBytes 1 b with
  | error er => rw [hr] at h; simp at h
  | ok p =>
    obtain ⟨idb, r1⟩ := p
    rw [hr] at h
    rw [readBytes_append hr]
    simp only [except_bind_ok] at h ⊢
    match idb with
    | [] => simp at h
    | [id] =>
      simp only at h ⊢
      cases hv : mdValue (id / 32 % 8) r1 with
      | error er => rw [hv] at h; simp at h
      | ok q =>
        obtain ⟨v, r2⟩ := q
        rw [hv] at h
        rw [mdValue_append hv]
        simpa using h
    | _ :: _ :: _ => simp at h

theorem mdEntry_len {b : List Nat} {e : Nat × String × Value} {r : List Nat}
    (h : mdEntry b = .ok (e, r)) : r.length < b.length := by
  unfold mdEntry at h
  cases hr : readBytes 1 b with
  | error er => rw [hr] at h; simp at h
  | ok p =>
    obtain ⟨idb, r1⟩ := p
    rw [hr] at h
    simp only [except_bind_ok] at h
    obtain ⟨ha, hb⟩ := readBytes_len hr
    match idb with
    | [] => simp at h
    | [id] =>
      simp only at h
      cases hv : mdValue (id / 32 % 8) r1 with
      | error er => rw [hv] at h; simp at h
      | ok q =>
        obtain ⟨v, r2⟩ := q
        rw [hv] at h
        simp at h
        obtain ⟨he, hrr⟩ := h
        subst hrr
        have := mdValue_len hv
        omega
    | _ :: _ :: _ => simp at h

theorem mdEntry_nil : mdEntry [] = .error .fieldShort := by decide

theorem mdLoop_nil {f : Nat} : mdLoop f [] = .error .fieldShort := by
  match f with
  | 0 => rfl
  | g + 1 =>
    unfold mdLoop
    rw [mdEntry_nil]
    rfl

theorem mdLoop_mono {f g : Nat} {b s : List Nat} {es : List (Nat × String × Value)}
    {r : List Nat} (h : mdLoop f b = .ok (es, r)) (hf : f ≤ g) :
    mdLoop g (b ++ s) = .ok (es, r ++ s) := by
  induction f generalizing g b es r with
  | zero => rw [mdLoop] at h; simp at h
  | succ e ih =>
    match g, hf with
    | d + 1, hf =>
      unfold mdLoop at h ⊢
      cases he : mdEntry b with
      | error er => rw [he] at h; simp at h
      | ok p =>
        obtain ⟨en, r1⟩ := p
        rw [he] at h
        rw [mdEntry_append he]
        simp only [except_bind_ok] at h ⊢
        by_cases hpk : r1.head? = some 127
        · match r1, hpk with
          | x :: t, hpk =>
            simp at hpk
            subst hpk
            rw [if_pos (by simp)] at h ⊢
            simp only [Except.ok.injEq, Prod.mk.injEq] at h ⊢
            obtain ⟨h1, h2⟩ := h
            subst h2
            exact ⟨h1, by simp⟩
        · match r1 with
          | [] =>
            rw [if_neg hpk] at h
            cases hl : mdLoop e [] with
            | error er => rw [hl] at h; simp at h
            | ok q => rw [mdLoop_nil] at hl; simp at hl
          | x :: t =>
            have hx : x ≠ 127 := by
              intro hc
              exact hpk (by simp [hc])
            rw [if_neg hpk] at h
            rw [if_neg (by simp [hx])]
            cases hl : mdLoop e (x :: t) with
            | error er => rw [hl] at h; simp at h
            | ok q =>
              obtain ⟨es2, r2⟩ := q
              rw [hl] at h
              rw [ih hl (by omega)]
              simpa using h

theorem mdLoop_len {f : Nat} {b : List Nat} {es : List (Nat × String × Value)}
    {r : List Nat} (h : mdLoop f b = .ok (es, r)) : r.length ≤ b.length := by
  induction f generalizing b es r with
  | zero => rw [mdLoop] at h; simp at h
  | succ g ih =>
    unfold mdLoop at h
    cases he : mdEntry b with
    | error er => rw [he] at h; simp at h
    | ok p =>
      obtain ⟨e, r1⟩ := p
      rw [he] at h
      simp only [except_bind_ok] at h
      have h1 := mdEntry_len he
      by_cases hpk : r1.head? = some 127
      · rw [if_pos hpk] at h
        simp at h
        obtain ⟨hes, hrr⟩ := h
        subst hrr
        omega
      · rw [if_neg hpk] at h
        cases hl : mdLoop g r1 with
        | error er => rw [hl] at h; simp at h
        | ok q =>
          obtain ⟨es2, r2⟩ := q
          rw [hl] at h
          simp at h
          obtain ⟨hes, hrr⟩ := h
          subst hrr
          have := ih hl
          omega

theorem parseMeta_append {b s : List Nat} {v : Value} {r : List Nat}
    (h : parseMeta b = .ok (v, r)) : parseMeta (b ++ s) = .ok (v, r ++ s) := by
  unfold parseMeta at h ⊢
  cases hl : mdLoop (b.length + 1) b with
  | error er => rw [hl] at h; simp at h
  | ok p =>
    obtain ⟨es, r1⟩ := p
    rw [hl] at h
    rw [mdLoop_mono hl (by simp)]
    simp only [except_bind_ok] at h ⊢
    cases ht : readBytes 1 r1 with
    | error er => rw [ht] at h; simp at h
    | ok q =>
      obtain ⟨tb, r2⟩ := q
      rw [ht] at h
      rw [readBytes_append ht]
      simp only [except_bind_ok] at h ⊢
      by_cases htb : tb = [127]
      · rw [if_pos htb] at h ⊢
        simpa using h
      · rw [if_neg htb] at h
        simp at h

theorem parseMeta_len {b : List Nat} {v : Value} {r : List Nat}
    (h : parseMeta b = .ok (v, r)) : r.length ≤ b.length := by
  unfold parseMeta at h
  cases hl : mdLoop (b.length + 1) b with
  | error er => rw [hl] at h; simp at h
  | ok p =>
    obtain ⟨es, r1⟩ := p
    rw [hl] at h
    simp only [except_bind_ok] at h
    have h1 := mdLoop_len hl
    cases ht : readBytes 1 r1 with
    | error er => rw [ht] at h; simp at h
    | ok q =>
      obtain ⟨tb, r2⟩ := q
      rw [ht] at h
      simp only [except_bind_ok] at h
      obtain ⟨ha, hb⟩ := readBytes_len ht
      by_cases htb : tb = [127]
      · rw [if_pos htb] at h
        simp at h
        obtain ⟨hv, hrr⟩ := h
        subst hrr
        omega
      · rw [if_neg htb] at h
        simp at h

theorem parseItemsN_append {n : Nat} {b s : List Nat} {vs : Value} {r : List Nat}
    (h : parseItemsN n b = .ok (vs, r)) : parseItemsN n (b ++ s) = .ok (vs, r ++ s) := by
  induction n generalizing b vs r with
  | zero =>
    unfold parseItemsN at h ⊢
    simp at h
    obtain ⟨h1, h2⟩ := h
    subst h1 h2
    rfl
  | succ m ih =>
    unfold parseItemsN at h ⊢
    cases h1 : parseItems b with
    | error e => rw [h1] at h; simp at h
    | ok p =>
      obtain ⟨fs, r1⟩ := p
      rw [h1] at h
      rw [parseItems_append h1]
      simp only [except_bind_ok] at h ⊢
      cases h2 : parseItemsN m r1 with
      | error e => rw [h2] at h; simp at h
      | ok q =>
        obtain ⟨rest, r2⟩ := q
        rw [h2] at h
        rw [ih h2]
        simpa using h

theorem parseItemsN_len {n : Nat} {b : List Nat} {vs : Value} {r : List Nat}
    (h : parseItemsN n b = .ok (vs, r)) : r.length ≤ b.length := by
  induction n generalizing b vs r with
  | zero =>
    unfold parseItemsN at h
    simp at h
    obtain ⟨h1, h2⟩ := h
    subst h2
    exact le_refl _
  | succ m ih =>
    unfold parseItemsN at h
    cases h1 : parseItems b with
    | error e => rw [h1] at h; simp at h
    | ok p =>
      obtain ⟨fs, r1⟩ := p
      rw [h1] at h
      simp only [except_bind_ok] at h
      have ha := parseItems_len h1
      cases h2 : parseItemsN m r1 with
      | error e => rw [h2] at h; simp at h
      | ok q =>
        obtain ⟨rest, r2⟩ := q
        rw [h2] at h
        simp at h
        obtain ⟨hv, hrr⟩ := h
        subst hrr
        have := ih h2
        omega

theorem parseU32N_append {n : Nat} {b s : List Nat} {vs : Value} {r : List Nat}
    (h : parseU32N n b = .ok (vs, r)) : parseU32N n (b ++ s) = .ok (vs, r ++ s) := by
  induction n generalizing b vs r with
  | zero =>
    unfold parseU32N at h ⊢
    simp at h
    obtain ⟨h1, h2⟩ := h
    subst h1 h2
    rfl
  | succ m ih =>
    unfold parseU32N at h ⊢
    cases h1 : parseU 4 b with
    | error e => rw [h1] at h; simp at h
    | ok p =>
      obtain ⟨v, r1⟩ := p
      rw [h1] at h
      rw [parseU_append h1]
      simp only [except_bind_ok] at h ⊢
      cases h2 : parseU32N m r1 with
      | error e => rw [h2] at h; simp at h
      | ok q =>
        obtain ⟨rest, r2⟩ := q
        rw [h2] at h
        rw [ih h2]
        simpa using h

theorem parseU32N_len {n : Nat} {b : List Nat} {vs : Value} {r : List Nat}
    (h : parseU32N n b = .ok (vs, r)) : r.length ≤ b.length := by
  induction n generalizing b vs r with
  | zero =>
    unfold parseU32N at h
    simp at h
    obtain ⟨h1, h2⟩ := h
    subst h2
    exact le_refl _
  | succ m ih =>
    unfold parseU32N at h
    cases h1 : parseU 4 b with
    | error e => rw [h1] at h; simp at h
    | ok p =>
      obtain ⟨v, r1⟩ := p
      rw [h1] at h
      simp only [except_bind_ok] at h
      have ha := parseU_len h1
      cases h2 : parseU32N m r1 with
      | error e => rw [h2] at h; simp at h
      | ok q =>
        obtain ⟨rest, r2⟩ := q
        rw [h2] at h
        simp at h
        obtain ⟨hv, hrr⟩ := h
        subst hrr
        have := ih h2
        omega

theorem parseCon_append {c : PCon} {ctx : Value} {b s : List Nat} {fs : Value}
    {r : List Nat} (h : parseCon c ctx b = .ok (fs, r)) :
    parseCon c ctx (b ++ s) = .ok (fs, r ++ s) := by
  induction c generalizing ctx b fs r with
  | uintC w n =>
    unfold parseCon at h ⊢
    cases h1 : parseU w b with
    | error e => rw [h1] at h; simp at h
    | ok p =>
      obtain ⟨v, r1⟩ := p
      rw [h1] at h
      rw [parseU_append h1]
      simpa using h
  | sintC w n =>
    unfold parseCon at h ⊢
    cases h1 : parseS w b with
    | error e => rw [h1] at h; simp at h
    | ok p =>
      obtain ⟨v, r1⟩ := p
      rw [h1] at h
      rw [parseS_append h1]
      simpa using h
  | floatC w n =>
    unfold parseCon at h ⊢
    cases h1 : readBytes w b with
    | error e => rw [h1] at h; simp at h
    | ok p =>
      obtain ⟨bs, r1⟩ := p
      rw [h1] at h
      rw [readBytes_append h1]
      simpa using h
  | enumC w signed n table =>
    unfold parseCon at h ⊢
    cases signed with
    | false =>
      rw [if_neg (by simp)] at h ⊢
      cases h1 : parseU w b with
      | error e => rw [h1] at h; simp at h
      | ok p =>
        obtain ⟨v, r1⟩ := p
        rw [h1] at h
        rw [parseU_append h1]
        simp only [except_bind_ok] at h ⊢
        cases hf : table.find? (fun p => p.2 = v) with
        | none => rw [hf] at h; simp at h
        | some q =>
          rw [hf] at h
          simpa using h
    | true =>
      rw [if_pos rfl] at h ⊢
      cases h1 : parseS w b with
      | error e => rw [h1] at h; simp at h
      | ok p =>
        obtain ⟨v, r1⟩ := p
        rw [h1] at h
        rw [parseS_append h1]
        simp only [except_bind_ok] at h ⊢
        cases hf : table.find? (fun p => p.2 = v) with
        | none => rw [hf] at h; simp at h
        | some q =>
          rw [hf] at h
          simpa using h
  | boolC n =>
    unfold parseCon at h ⊢
    cases h1 : readBytes 1 b with
    | error e => rw [h1] at h; simp at h
    | ok p =>
      obtain ⟨bs, r1⟩ := p
      rw [h1] at h
      rw [readBytes_append h1]
      simpa using h
  | alphaC n =>
    unfold parseCon at h ⊢
    cases h1 : parseAlpha b with
    | error e => rw [h1] at h; simp at h
    | ok p =>
      obtain ⟨v, r1⟩ := p
      rw [h1] at h
      rw [parseAlpha_append h1]
      simpa using h
  | pascalC n lenW =>
    unfold parseCon at h ⊢
    cases h1 : parsePascal lenW b with
    | error e => rw [h1] at h; simp at h
    | ok p =>
      obtain ⟨v, r1⟩ := p
      rw [h1] at h
      rw [parsePascal_append h1]
      simpa using h
  | itemsE => exact parseItems_append h
  | arrayU32 n key =>
    unfold parseCon at h ⊢
    cases h1 : parseU32N (ctxNat ctx key) b with
    | error e => rw [h1] at h; simp at h
    | ok p =>
      obtain ⟨vs, r1⟩ := p
      rw [h1] at h
      rw [parseU32N_append h1]
      simpa using h
  | arrayItems n key =>
    unfold parseCon at h ⊢
    cases h1 : parseItemsN (ctxNat ctx key) b with
    | error e => rw [h1] at h; simp at h
    | ok p =>
      obtain ⟨vs, r1⟩ := p
      rw [h1] at h
      rw [parseItemsN_append h1]
      simpa using h
  | blobC n key mult =>
    unfold parseCon at h ⊢
    cases h1 : readBytes (ctxNat ctx key * mult) b with
    | error e => rw [h1] at h; simp at h
    | ok p =>
      obtain ⟨bs, r1⟩ := p
      rw [h1] at h
      rw [readBytes_append h1]
      simpa using h
  | metaC n =>
    unfold parseCon at h ⊢
    cases h1 : parseMeta b with
    | error e => rw [h1] at h; simp at h
    | ok p =>
      obtain ⟨v, r1⟩ := p
      rw [h1] at h
      rw [parseMeta_append h1]
      simpa using h
  | structC n body ih =>
    unfold parseCon at h ⊢
    cases h1 : parseCon body vnil b with
    | error e => rw [h1] at h; simp at h
    | ok p =>
      obtain ⟨fs1, r1⟩ := p
      rw [h1] at h
      rw [ih h1]
      simpa using h
  | seqC c rest ihc ihrest =>
    unfold parseCon at h ⊢
    cases h1 : parseCon c ctx b with
    | error e => rw [h1] at h; simp at h
    | ok p =>
      obtain ⟨fs1, r1⟩ := p
      rw [h1] at h
      rw [ihc h1]
      simp only [except_bind_ok] at h ⊢
      cases h2 : parseCon rest (bappend ctx fs1) r1 with
      | error e => rw [h2] at h; simp at h
      | ok q =>
        obtain ⟨fs2, r2⟩ := q
        rw [h2] at h
        rw [ihrest h2]
        simpa using h
  | nilC =>
    unfold parseCon at h ⊢
    simp at h
    obtain ⟨h1, h2⟩ := h
    subst h1 h2
    rfl

theorem parseCon_len {c : PCon} {ctx : Value} {b : List Nat} {fs : Value}
    {r : List Nat} (h : parseCon c ctx b = .ok (fs, r)) : r.length ≤ b.length := by
  induction c generalizing ctx b fs r with
  | uintC w n =>
    unfold parseCon at h
    cases h1 : parseU w b with
    | error e => rw [h1] at h; simp at h
    | ok p =>
      obtain ⟨v, r1⟩ := p
      rw [h1] at h
      simp at h
      obtain ⟨hv, hrr⟩ := h
      subst hrr
      have := parseU_len h1
      omega
  | sintC w n =>
    unfold parseCon at h
    cases h1 : parseS w b with
    | error e => rw [h1] at h; simp at h
    | ok p =>
      obtain ⟨v, r1⟩ := p
      rw [h1] at h
      simp at h
      obtain ⟨hv, hrr⟩ := h
      subst hrr
      have := parseS_len h1
      omega
  | floatC w n =>
    unfold parseCon at h
    cases h1 : readBytes w b with
    | error e => rw [h1] at h; simp at h
    | ok p =>
      obtain ⟨bs, r1⟩ := p
      rw [h1] at h
      simp at h
      obtain ⟨hv, hrr⟩ := h
      subst hrr
      obtain ⟨ha, hb⟩ := readBytes_len h1
      omega
  | enumC w signed n table =>
    unfold parseCon at h
    cases signed with
    | false =>
      rw [if_neg (by simp)] at h
      cases h1 : parseU w b with
      | error e => rw [h1] at h; simp at h
      | ok p =>
        obtain ⟨v, r1⟩ := p
        rw [h1] at h
        simp only [except_bind_ok] at h
        cases hf : table.find? (fun p => p.2 = v) with
        | none => rw [hf] at h; simp at h
        | some q =>
          rw [hf] at h
          simp at h
          obtain ⟨hv, hrr⟩ := h
          subst hrr
          have := parseU_len h1
          omega
    | true =>
      rw [if_pos rfl] at h
      cases h1 : parseS w b with
      | error e => rw [h1] at h; simp at h
      | ok p =>
        obtain ⟨v, r1⟩ := p
        rw [h1] at h
        simp only [except_bind_ok] at h
        cases hf : table.find? (fun p => p.2 = v) with
        | none => rw [hf] at h; simp at h
        | some q =>
          rw [hf] at h
          simp at h
          obtain ⟨hv, hrr⟩ := h
          subst hrr
          have := parseS_len h1
          omega
  | boolC n =>
    unfold parseCon at h
    cases h1 : readBytes 1 b with
    | error e => rw [h1] at h; simp at h
    | ok p =>
      obtain ⟨bs, r1⟩ := p
      rw [h1] at h
      simp at h
      obtain ⟨hv, hrr⟩ := h
      subst hrr
      obtain ⟨ha, hb⟩ := readBytes_len h1
      omega
  | alphaC n =>
    unfold parseCon at h
    cases h1 : parseAlpha b with
    | error e => rw [h1] at h; simp at h
    | ok p =>
      obtain ⟨v, r1⟩ := p
      rw [h1] at h
      simp at h
      obtain ⟨hv, hrr⟩ := h
      subst hrr
      exact parseAlpha_len h1
  | pascalC n lenW =>
    unfold parseCon at h
    cases h1 : parsePascal lenW b with
    | error e => rw [h1] at h; simp at h
    | ok p =>
      obtain ⟨v, r1⟩ := p
      rw [h1] at h
      simp at h
      obtain ⟨hv, hrr⟩ := h
      subst hrr
      exact parsePascal_len h1
  | itemsE => exact parseItems_len h
  | arrayU32 n key =>
    unfold parseCon at h
    cases h1 : parseU32N (ctxNat ctx key) b with
    | error e => rw [h1] at h; simp at h
    | ok p =>
      obtain ⟨vs, r1⟩ := p
      rw [h1] at h
      simp at h
      obtain ⟨hv, hrr⟩ := h
      subst hrr
      exact parseU32N_len h1
  | arrayItems n key =>
    unfold parseCon at h
    cases h1 : parseItemsN (ctxNat ctx key) b with
    | error e => rw [h1] at h; simp at h
    | ok p =>
      obtain ⟨vs, r1⟩ := p
      rw [h1] at h
      simp at h
      obtain ⟨hv, hrr⟩ := h
      subst hrr
      exact parseItemsN_len h1
  | blobC n key mult =>
    unfold parseCon at h
    cases h1 : readBytes (ctxNat ctx key * mult) b with
    | error e => rw [h1] at h; simp at h
    | ok p =>
      obtain ⟨bs, r1⟩ := p
      rw [h1] at h
      simp at h
      obtain ⟨hv, hrr⟩ := h
      subst hrr
      obtain ⟨ha, hb⟩ := readBytes_len h1
      omega
  | metaC n =>
    unfold parseCon at h
    cases h1 : parseMeta b with
    | error e => rw [h1] at h; simp at h
    | ok p =>
      obtain ⟨v, r1⟩ := p
      rw [h1] at h
      simp at h
      obtain ⟨hv, hrr⟩ := h
      subst hrr
      exact parseMeta_len h1
  | structC n body ih =>
    unfold parseCon at h
    cases h1 : parseCon body vnil b with
    | error e => rw [h1] at h; simp at h
    | ok p =>
      obtain ⟨fs1, r1⟩ := p
      rw [h1] at h
      simp at h
      obtain ⟨hv, hrr⟩ := h
      subst hrr
      exact ih h1
  | seqC c rest ihc ihrest =>
    unfold parseCon at h
    cases h1 : parseCon c ctx b with
    | error e => rw [h1] at h; simp at h
    | ok p =>
      obtain ⟨fs1, r1⟩ := p
      rw [h1] at h
      simp only [except_bind_ok] at h
      cases h2 : parseCon rest (bappend ctx fs1) r1 with
      | error e => rw [h2] at h; simp at h
      | ok q =>
        obtain ⟨fs2, r2⟩ := q
        rw [h2] at h
        simp at h
        obtain ⟨hv, hrr⟩ := h
        subst hrr
        have ha := ihc h1
        have hb := ihrest h2
        omega
  | nilC =>
    unfold parseCon at h
    simp at h
    obtain ⟨h1, h2⟩ := h
    subst h2
    exact le_refl _

theorem parseFullPacket_append {b s : List Nat} {p : Nat × Value} {r : List Nat}
    (h : parseFullPacket b = .ok (p, r)) : parseFullPacket (b ++ s) = .ok (p, r ++ s) := by
  match b with
  | [] => rw [parseFullPacket] at h; simp at h
  | hd :: t =>
    rw [parseFullPacket] at h
    rw [List.cons_append, parseFullPacket]
    cases hl : lookupPacket hd with
    | none => rw [hl] at h; simp at h
    | some c =>
      rw [hl] at h
      dsimp only at h ⊢
      cases hc : parseCon (conBody c) vnil t with
      | error e => rw [hc] at h; simp at h
      | ok q =>
        obtain ⟨fs, r2⟩ := q
        rw [hc] at h
        rw [parseCon_append hc]
        simpa using h

theorem parseFullPacket_len {b : List Nat} {p : Nat × Value} {r : List Nat}
    (h : parseFullPacket b = .ok (p, r)) : r.length < b.length := by
  match b with
  | [] => rw [parseFullPacket] at h; simp at h
  | hd :: t =>
    rw [parseFullPacket] at h
    cases hl : lookupPacket hd with
    | none => rw [hl] at h; simp at h
    | some c =>
      rw [hl] at h
      dsimp only at h
      cases hc : parseCon (conBody c) vnil t with
      | error e => rw [hc] at h; simp at h
      | ok q =>
        obtain ⟨fs, r2⟩ := q
        rw [hc] at h
        simp at h
        obtain ⟨hv, hrr⟩ := h
        subst hrr
        have := parseCon_len hc
        simp
        omega

theorem bulkLoop_fuel : ∀ {f g : Nat} {b : List Nat}, b.length < f → b.length < g →
    bulkLoop f b = bulkLoop g b := by
  intro f
  induction f with
  | zero => intro g b hf hg; omega
  | succ e ih =>
    intro g b hf hg
    match g, hg with
    | d + 1, hg =>
      rw [bulkLoop, bulkLoop]
      cases hp : parseFullPacket b with
      | error er => rfl
      | ok q =>
        obtain ⟨pk, r⟩ := q
        have hlen := parseFullPacket_len hp
        dsimp only
        have hx := ih (g := d) (b := r) (by omega) (by omega)
        rw [hx]

theorem incLoop_fuel : ∀ {f g : Nat} {b : List Nat}, b.length < f → b.length < g →
    incLoop f b = incLoop g b := by
  intro f
  induction f with
  | zero => intro g b hf hg; omega
  | succ e ih =>
    intro g b hf hg
    match g, hg with
    | d + 1, hg =>
      rw [incLoop, incLoop]
      by_cases hb : b = []
      · rw [if_pos hb, if_pos hb]
      · rw [if_neg hb, if_neg hb]
        cases hp : parseFullPacket b with
        | error er => rfl
        | ok q =>
          obtain ⟨pk, r⟩ := q
          have hlen := parseFullPacket_len hp
          dsimp only
          have hx := ih (g := d) (b := r) (by omega) (by omega)
          rw [hx]

theorem parse_packets_eq_of_err {b : List Nat} {e : PErr}
    (h : parseFullPacket b = .error e) : parse_packets b = ([], b) := by
  unfold parse_packets
  rw [bulkLoop, h]

theorem parse_packets_eq_of_ok {b : List Nat} {pk : Nat × Value} {r : List Nat}
    (h : parseFullPacket b = .ok (pk, r)) :
    parse_packets b = (pk :: (parse_packets r).1, (parse_packets r).2) := by
  unfold parse_packets
  rw [bulkLoop, h]
  have hlen := parseFullPacket_len h
  dsimp only
  rw [bulkLoop_fuel (f := b.length) (g := r.length + 1) (by omega) (by omega)]

theorem parse_packets_nil : parse_packets [] = ([], []) := rfl

theorem parse_packets_concat : ∀ (n : Nat) (p s : List Nat), p.length ≤ n →
    parse_packets (p ++ s) =
      ((parse_packets p).1 ++ (parse_packets ((parse_packets p).2 ++ s)).1,
       (parse_packets ((parse_packets p).2 ++ s)).2) := by
  intro n
  induction n with
  | zero =>
    intro p s hp
    have hp0 : p = [] := List.length_eq_zero.mp (Nat.le_zero.mp hp)
    subst hp0
    rw [parse_packets_nil]
    simp
  | succ m ih =>
    intro p s hp
    cases hfp : parseFullPacket p with
    | error e =>
      rw [parse_packets_eq_of_err hfp]
      simp
    | ok q =>
      obtain ⟨pk, r⟩ := q
      have hlen := parseFullPacket_len hfp
      have hmono := parseFullPacket_append (s := s) hfp
      rw [parse_packets_eq_of_ok hmono]
      rw [parse_packets_eq_of_ok hfp]
      rw [ih r s (by omega)]
      simp

theorem single_packet_consumes_all {w : List Nat} {hd : Nat} {pl : Value}
    (h : parse_packets w = ([(hd, pl)], [])) :
    parseFullPacket w = .ok ((hd, pl), []) := by
  cases hfp : parseFullPacket w with
  | error e =>
    rw [parse_packets_eq_of_err hfp] at h
    simp at h
  | ok q =>
    obtain ⟨pk, r⟩ := q
    rw [parse_packets_eq_of_ok hfp] at h
    cases hfp2 : parseFullPacket r with
    | error e =>
      rw [parse_packets_eq_of_err hfp2] at h
      simp at h
      obtain ⟨h1, h2⟩ := h
      subst h1
      subst h2
      rfl
    | ok q2 =>
      obtain ⟨pk2, r2⟩ := q2
      rw [parse_packets_eq_of_ok hfp2] at h
      simp at h

theorem prefix_of_packet_parses_empty {w : List Nat} {hd : Nat} {pl : Value} {k : Nat}
    (h : parse_packets w = ([(hd, pl)], [])) (hk : k < w.length) :
    parse_packets (w.take k) = ([], w.take k) := by
  have hfull := single_packet_consumes_all h
  cases hfp : parseFullPacket (w.take k) with
  | error e => exact parse_packets_eq_of_err hfp
  | ok q =>
    obtain ⟨pk, r⟩ := q
    exfalso
    have hmono := parseFullPacket_append (s := w.drop k) hfp
    rw [List.take_append_drop] at hmono
    rw [hfull] at hmono
    simp at hmono
    obtain ⟨h1, h2⟩ := hmono
    obtain ⟨h2a, h2b⟩ := h2
    omega

theorem parse_packets_incrementally_nil : parse_packets_incrementally [] = ([], none) := rfl

theorem inc_eq_of_err {b : List Nat} {e : PErr} (hb : b ≠ [])
    (h : parseFullPacket b = .error e) :
    parse_packets_incrementally b = ([], some e) := by
  unfold parse_packets_incrementally
  rw [incLoop, if_neg hb, h]

theorem inc_eq_of_ok {b : List Nat} {pk : Nat × Value} {r : List Nat} (hb : b ≠ [])
    (h : parseFullPacket b = .ok (pk, r)) :
    parse_packets_incrementally b =
      (pk :: (parse_packets_incrementally r).1, (parse_packets_incrementally r).2) := by
  unfold parse_packets_incrementally
  rw [incLoop, if_neg hb, h]
  have hlen := parseFullPacket_len h
  dsimp only
  rw [incLoop_fuel (f := b.length) (g := r.length + 1) (by omega) (by omega)]

theorem inc_agrees_bulk : ∀ (n : Nat) (b : List Nat), b.length ≤ n →
    (parse_packets_incrementally b).1 = (parse_packets b).1 ∧
    ((parse_packets_incrementally b).2 = none ↔ (parse_packets b).2 = []) := by
  intro n
  induction n with
  | zero =>
    intro b hb
    have hb0 : b = [] := List.length_eq_zero.mp (Nat.le_zero.mp hb)
    subst hb0
    rw [parse_packets_incrementally_nil, parse_packets_nil]
    simp
  | succ m ih =>
    intro b hb
    by_cases hbe : b = []
    · subst hbe
      rw [parse_packets_incrementally_nil, parse_packets_nil]
      simp
    · cases hfp : parseFullPacket b with
      | error e =>
        rw [inc_eq_of_err hbe hfp, parse_packets_eq_of_err hfp]
        refine ⟨rfl, ?_, ?_⟩
        · intro hc; simp at hc
        · intro hc; exact absurd hc hbe
      | ok q =>
        obtain ⟨pk, r⟩ := q
        have hlen := parseFullPacket_len hfp
        rw [inc_eq_of_ok hbe hfp, parse_packets_eq_of_ok hfp]
        obtain ⟨ih1, ih2⟩ := ih r (by omega)
        exact ⟨by simp [ih1], by simpa using ih2⟩

theorem unknown_opcode_full {h : Nat} {r : List Nat} (hl : lookupPacket h = none) :
    parseFullPacket (h :: r) = .error .switchMiss := by
  rw [parseFullPacket, hl]

theorem unknown_opcode_bulk {h : Nat} {r : List Nat} (hl : lookupPacket h = none) :
    parse_packets (h :: r) = ([], h :: r) :=
  parse_packets_eq_of_err (unknown_opcode_full hl)

theorem unknown_opcode_incremental {h : Nat} {r : List Nat} (hl : lookupPacket h = none) :
    parse_packets_incrementally (h :: r) = ([], some .switchMiss) :=
  inc_eq_of_err (by simp) (unknown_opcode_full hl)

theorem blookup_dictSet {d : Value} {k : String} {v : Value} {k' : String} :
    blookup (dictSet d k v) k' = if k' = k then some v else blookup d k' := by
  induction d with
  | vfield n w r ihw ihr =>
    rw [dictSet]
    by_cases hn : n = k
    · rw [if_pos hn]
      subst hn
      by_cases hk : k' = n
      · subst hk
        rw [blookup, if_pos rfl, if_pos rfl]
      · rw [blookup, if_neg (fun hc => hk hc.symm), if_neg hk, blookup,
          if_neg (fun hc => hk hc.symm)]
    · rw [if_neg hn, blookup]
      by_cases hk : n = k'
      · have hk2 : ¬(k' = k) := fun hc => hn (hk.trans hc)
        rw [if_pos hk, if_neg hk2, blookup, if_pos hk]
      · rw [if_neg hk, ihr]
        by_cases hkk : k' = k
        · rw [if_pos hkk, if_pos hkk]
        · rw [if_neg hkk, if_neg hkk, blookup, if_neg hk]
  | vint n =>
    by_cases hk : k' = k
    · simp [dictSet, blookup, hk]
    · simp [dictSet, blookup, hk, Ne.symm hk]
  | vsym s =>
    by_cases hk : k' = k
    · simp [dictSet, blookup, hk]
    · simp [dictSet, blookup, hk, Ne.symm hk]
  | vbool b =>
    by_cases hk : k' = k
    · simp [dictSet, blookup, hk]
    · simp [dictSet, blookup, hk, Ne.symm hk]
  | vstr cs =>
    by_cases hk : k' = k
    · simp [dictSet, blookup, hk]
    · simp [dictSet, blookup, hk, Ne.symm hk]
  | vbytes bs =>
    by_cases hk : k' = k
    · simp [dictSet, blookup, hk]
    · simp [dictSet, blookup, hk, Ne.symm hk]
  | vnil =>
    by_cases hk : k' = k
    · simp [dictSet, blookup, hk]
    · simp [dictSet, blookup, hk, Ne.symm hk]
  | vcons a b iha ihb =>
    by_cases hk : k' = k
    · simp [dictSet, blookup, hk]
    · simp [dictSet, blookup, hk, Ne.symm hk]
  | vrec fs ih =>
    by_cases hk : k' = k
    · simp [dictSet, blookup, hk]
    · simp [dictSet, blookup, hk, Ne.symm hk]
  | vlist es ih =>
    by_cases hk : k' = k
    · simp [dictSet, blookup, hk]
    · simp [dictSet, blookup, hk, Ne.symm hk]
  | vmentry a t vv rest ihv ihr =>
    by_cases hk : k' = k
    · simp [dictSet, blookup, hk]
    · simp [dictSet, blookup, hk, Ne.symm hk]
  | vmeta es ih =>
    by_cases hk : k' = k
    · simp [dictSet, blookup, hk]
    · simp [dictSet, blookup, hk, Ne.symm hk]

theorem lastValAux : ∀ (t : List (String × Value)) (init : Option Value) (k : String),
    t.foldl (fun acc kv => if kv.1 = k then some kv.2 else acc) init =
      match lastVal t k with
      | some v => some v
      | none => init := by
  intro t
  induction t with
  | nil => intro init k; rfl
  | cons kv t ih =>
    intro init k
    rw [List.foldl_cons, ih]
    have hr : lastVal (kv :: t) k =
        t.foldl (fun acc kv => if kv.1 = k then some kv.2 else acc)
          (if kv.1 = k then some kv.2 else none) := by
      rw [lastVal, List.foldl_cons]
    rw [hr, ih]
    by_cases hk : kv.1 = k
    · rw [if_pos hk, if_pos hk]
      cases lastVal t k with
      | some v => rfl
      | none => rfl
    · rw [if_neg hk, if_neg hk]
      cases lastVal t k with
      | some v => rfl
      | none => rfl

theorem lastVal_cons {kv : String × Value} {t : List (String × Value)} {k : String} :
    lastVal (kv :: t) k =
      match lastVal t k with
      | some v => some v
      | none => if kv.1 = k then some kv.2 else none := by
  rw [lastVal, List.foldl_cons]
  exact lastValAux t _ k

theorem blookup_dictUpdate : ∀ (src : List (String × Value)) (d : Value) (k : String),
    blookup (dictUpdate d src) k =
      match lastVal src k with
      | some v => some v
      | none => blookup d k := by
  intro src
  induction src with
  | nil => intro d k; rfl
  | cons kv t ih =>
    intro d k
    have h1 : dictUpdate d (kv :: t) = dictUpdate (dictSet d kv.1 kv.2) t := by
      rw [dictUpdate, List.foldl_cons]; rfl
    rw [h1, ih, lastVal_cons, blookup_dictSet]
    cases lastVal t k with
    | some v => rfl
    | none =>
      by_cases hk : kv.1 = k
      · rw [if_pos hk, if_pos hk.symm]
      · rw [if_neg hk, if_neg (fun hc => hk hc.symm)]

theorem mergeSources_lookup : ∀ (args : List (List (String × Value))) (kw : Value)
    (k : String),
    blookup (mergeSources kw args) k =
      match lastSourceVal args k with
      | some v => some v
      | none => blookup kw k := by
  intro args
  induction args with
  | nil => intro kw k; rfl
  | cons src t ih =>
    intro kw k
    have h1 : mergeSources kw (src :: t) = mergeSources (dictUpdate kw src) t := by
      rw [mergeSources, List.foldl_cons]; rfl
    have h2 : lastSourceVal (src :: t) k =
        match lastSourceVal t k with
        | some v => some v
        | none => lastVal src k := rfl
    rw [h1, ih, blookup_dictUpdate, h2]
    cases lastSourceVal t k with
    | some v => rfl
    | none =>
      cases lastVal src k with
      | some v => rfl
      | none => rfl

theorem readBytes_one {b0 : Nat} {rest : List Nat} :
    readBytes 1 (b0 :: rest) = .ok ([b0], rest) := by
  unfold readBytes
  rw [if_pos (by simp)]
  rfl

theorem readBytes_two {b0 b1 : Nat} {rest : List Nat} :
    readBytes 2 (b0 :: b1 :: rest) = .ok ([b0, b1], rest) := by
  unfold readBytes
  rw [if_pos (by simp)]
  rfl

theorem parseU_one {b0 : Nat} {rest : List Nat} :
    parseU 1 (b0 :: rest) = .ok ((b0 : Int), rest) := by
  unfold parseU
  rw [readBytes_one]
  simp [beNat]

theorem parseU_two {b0 b1 : Nat} {rest : List Nat} :
    parseU 2 (b0 :: b1 :: rest) = .ok (((b0 * 256 + b1 : Nat) : Int), rest) := by
  unfold parseU
  rw [readBytes_two]
  simp [beNat]

theorem parseS_two {b0 b1 : Nat} {rest : List Nat} :
    parseS 2 (b0 :: b1 :: rest) = .ok (sInt 2 (b0 * 256 + b1), rest) := by
  unfold parseS
  rw [readBytes_two]
  simp [beNat]

theorem ucs2decode_length : ∀ bs : List Nat, (ucs2decode bs).length = bs.length / 2
  | [] => rfl
  | [_] => by simp [ucs2decode]
  | b0 :: b1 :: rest => by
    rw [ucs2decode]
    simp only [List.length_cons]
    rw [ucs2decode_length rest]
    omega

theorem ucs2encode_length : ∀ cs : List Nat, (ucs2encode cs).length = 2 * cs.length
  | [] => rfl
  | c :: rest => by
    rw [ucs2encode]
    simp only [List.length_cons]
    rw [ucs2encode_length rest]
    omega

/-- C4: item-stack decoding with negative primary id consumes exactly the
two primary bytes and produces no extension fields; with non-negative
primary id it consumes exactly seven bytes (2-byte primary, 1-byte count,
2-byte secondary, 2-byte sentinel) and demands the exact sentinel 0xff
0xff, raising the hard ConstError (the spec names it InvalidSentinel) on a
mismatch; building a non-empty slot always emits the canonical sentinel. -/
theorem C4_item_stack :
    (∀ (b0 b1 : Nat) (rest : List Nat), sInt 2 (b0 * 256 + b1) < 0 →
      parseItems (b0 :: b1 :: rest) =
        .ok (vfield "primary" (vint (sInt 2 (b0 * 256 + b1))) vnil, rest)) ∧
    (∀ (b0 b1 c s0 s1 : Nat) (rest : List Nat), 0 ≤ sInt 2 (b0 * 256 + b1) →
      parseItems (b0 :: b1 :: c :: s0 :: s1 :: 255 :: 255 :: rest) =
        .ok (vfield "primary" (vint (sInt 2 (b0 * 256 + b1)))
          (vfield "count" (vint (c : Nat))
            (vfield "secondary" (vint ((s0 * 256 + s1 : Nat))) vnil)), rest)) ∧
    (∀ (b0 b1 c s0 s1 m0 m1 : Nat) (rest : List Nat), 0 ≤ sInt 2 (b0 * 256 + b1) →
      ¬(m0 = 255 ∧ m1 = 255) →
      parseItems (b0 :: b1 :: c :: s0 :: s1 :: m0 :: m1 :: rest) = .error .constMism) ∧
    (∀ (p c s : Int), 0 ≤ p → p < 2 ^ 15 → 0 ≤ c → c < 2 ^ 8 → 0 ≤ s → s < 2 ^ 16 →
      buildItems (vfield "primary" (vint p) (vfield "count" (vint c)
          (vfield "secondary" (vint s) vnil))) =
        .ok (beBytes 2 p.toNat ++ beBytes 1 c.toNat ++ beBytes 2 s.toNat ++ [255, 255])) := by
  refine ⟨?_, ?_, ?_, ?_⟩
  · intro b0 b1 rest hneg
    unfold parseItems
    rw [parseS_two]
    simp only [except_bind_ok]
    rw [if_neg (by omega)]
  · intro b0 b1 c s0 s1 rest hpos
    unfold parseItems
    rw [parseS_two]
    simp only [except_bind_ok]
    rw [if_pos hpos, parseU_one]
    simp only [except_bind_ok]
    rw [parseU_two]
    simp only [except_bind_ok]
    rw [readBytes_two]
    simp only [except_bind_ok]
    simp
  · intro b0 b1 c s0 s1 m0 m1 rest hpos hm
    unfold parseItems
    rw [parseS_two]
    simp only [except_bind_ok]
    rw [if_pos hpos, parseU_one]
    simp only [except_bind_ok]
    rw [parseU_two]
    simp only [except_bind_ok]
    rw [readBytes_two]
    simp only [except_bind_ok]
    rw [if_neg (by intro hc; simp at hc; exact hm hc)]
  · intro p c s hp1 hp2 hc1 hc2 hs1 hs2
    unfold buildItems
    have hb1 : blookup (vfield "primary" (vint p) (vfield "count" (vint c)
        (vfield "secondary" (vint s) vnil))) "primary" = some (vint p) := by
      simp [blookup]
    have hb2 : blookup (vfield "primary" (vint p) (vfield "count" (vint c)
        (vfield "secondary" (vint s) vnil))) "count" = some (vint c) := by
      simp [blookup]
    have hb3 : blookup (vfield "primary" (vint p) (vfield "count" (vint c)
        (vfield "secondary" (vint s) vnil))) "secondary" = some (vint s) := by
      simp [blookup]
    rw [hb1]
    dsimp only
    unfold buildS
    dsimp only
    rw [if_pos ⟨by omega, by omega⟩]
    simp only [except_bind_ok]
    rw [if_pos hp1, hb2]
    dsimp only
    unfold buildU
    dsimp only
    rw [if_pos ⟨hc1, by omega⟩]
    simp only [except_bind_ok]
    rw [hb3]
    dsimp only
    rw [if_pos ⟨hs1, by omega⟩]
    simp only [except_bind_ok]
    rw [show p.emod (2 ^ (8 * 2)) = p from Int.emod_eq_of_lt hp1 (by omega)]

/-- C5 counterexample: the bytes an empty metadata mapping encodes to do
not decode back to an empty mapping. -/
theorem C5_counterexample :
    buildMeta (vmeta vnil) = .ok [0, 0, 127] ∧
    parseMeta [0, 0, 127] ≠ .ok (vmeta vnil, []) := by decide

/-- C5 (amended): encoding the empty metadata mapping produces exactly the
bytes of the single synthesized entry (slot 0, type byte, value 0)
followed by the 0x7f terminator; decoding those bytes back yields the
singleton mapping of slot 0 to (byte, 0), not the empty mapping. -/
theorem C5_metadata_empty :
    buildMeta (vmeta vnil) = .ok [0, 0, 127] ∧
    parseMeta [0, 0, 127] = .ok (vmeta (vmentry 0 "byte" (vint 0) vnil), []) := by decide

/-- C6: AlphaString decoding reads the unsigned 16-bit character count N,
consumes exactly N*2 further bytes and produces a text value of N
characters; encoding a text of N characters emits N as the length field
(the character count, not the byte count) followed by 2*N bytes of its
two-byte-per-character form. -/
theorem C6_alpha_string :
    (∀ (n0 n1 : Nat) (rest : List Nat), (n0 * 256 + n1) * 2 ≤ rest.length →
      parseAlpha (n0 :: n1 :: rest) =
        .ok (vstr (ucs2decode (rest.take ((n0 * 256 + n1) * 2))),
          rest.drop ((n0 * 256 + n1) * 2)) ∧
      (ucs2decode (rest.take ((n0 * 256 + n1) * 2))).length = n0 * 256 + n1) ∧
    (∀ cs : List Nat, cs.length < 2 ^ 16 →
      buildAlpha (vstr cs) = .ok (beBytes 2 cs.length ++ ucs2encode cs) ∧
      (ucs2encode cs).length = 2 * cs.length) := by
  constructor
  · intro n0 n1 rest h
    constructor
    · unfold parseAlpha
      rw [parseU_two]
      simp only [except_bind_ok]
      rw [show ((((n0 * 256 + n1 : Nat)) : Int)).toNat = n0 * 256 + n1 from
        Int.toNat_natCast _]
      unfold readBytes
      rw [if_pos h]
      simp only [except_bind_ok]
    · rw [ucs2decode_length, List.length_take]
      omega
  · intro cs h
    exact ⟨by unfold buildAlpha; dsimp only; rw [if_pos h], ucs2encode_length cs⟩

/-- C1: every proper prefix of a single valid encoded packet bulk-parses to
zero packets with the prefix returned verbatim as leftover; and for every
byte sequence split into two parts, one bulk parse of the whole equals
parsing the first part, appending the rest to its leftover, and parsing
again (packet lists concatenated, leftover taken from the second call). -/
theorem C1_bulk_stream :
    (∀ (w : List Nat) (hd : Nat) (pl : Value) (k : Nat),
      parse_packets w = ([(hd, pl)], []) → k < w.length →
      parse_packets (w.take k) = ([], w.take k)) ∧
    (∀ (p s : List Nat),
      parse_packets (p ++ s) =
        ((parse_packets p).1 ++ (parse_packets ((parse_packets p).2 ++ s)).1,
         (parse_packets ((parse_packets p).2 ++ s)).2)) :=
  ⟨fun _ _ _ _ h hk => prefix_of_packet_parses_empty h hk,
   fun p s => parse_packets_concat p.length p s (le_refl _)⟩

/-- Witness for C1 at a concrete ping packet and a concrete split. -/
theorem C1_witness :
    parse_packets (List.take 3 [0, 0, 0, 0, 7]) = ([], List.take 3 [0, 0, 0, 0, 7]) ∧
    parse_packets ([0, 0, 0, 0, 7] ++ [0, 0]) =
      ((parse_packets [0, 0, 0, 0, 7]).1 ++
        (parse_packets ((parse_packets [0, 0, 0, 0, 7]).2 ++ [0, 0])).1,
       (parse_packets ((parse_packets [0, 0, 0, 0, 7]).2 ++ [0, 0])).2) :=
  ⟨C1_bulk_stream.1 [0, 0, 0, 0, 7] 0 (vrec (vfield "pid" (vint 7) vnil)) 3
      (by decide) (by decide),
   C1_bulk_stream.2 [0, 0, 0, 0, 7] [0, 0]⟩

/-- C3 (amended): the incremental parser yields exactly the complete
leading packets in arrival order (the same list the bulk parser yields)
and terminates cleanly iff the remaining bytes are empty; two concatenated
valid packets followed by a short tail yield two results after which an
insufficient-data error is raised rather than a clean stop. -/
theorem C3_incremental :
    (∀ b : List Nat,
      (parse_packets_incrementally b).1 = (parse_packets b).1 ∧
      ((parse_packets_incrementally b).2 = none ↔ (parse_packets b).2 = [])) ∧
    parse_packets_incrementally ([0, 0, 0, 0, 1] ++ [0, 0, 0, 0, 2] ++ [0]) =
      ([(0, vrec (vfield "pid" (vint 1) vnil)), (0, vrec (vfield "pid" (vint 2) vnil))],
       some .fieldShort) :=
  ⟨fun b => inc_agrees_bulk b.length b (le_refl _), by decide⟩

/-- C3 counterexample: on two valid ping packets followed by a one-byte
tail the incremental generator ends with an insufficient-data error, not a
clean stop. -/
theorem C3_counterexample :
    parse_packets_incrementally ([0, 0, 0, 0, 1] ++ [0, 0, 0, 0, 2] ++ [0]) =
      ([(0, vrec (vfield "pid" (vint 1) vnil)), (0, vrec (vfield "pid" (vint 2) vnil))],
       some .fieldShort) ∧
    (some PErr.fieldShort ≠ (none : Option PErr)) := by decide

/-- C7 (amended): a buffer whose opcode byte has no registered schema is
the hard SwitchError (the spec names it UnknownOpcode) for the one-packet
parser and the incremental entrypoint raises it; the bulk entrypoint does
not raise but swallows it, returning the bytes verbatim as leftovers; the
gap values 27, 36 and 37 are indeed unregistered. -/
theorem C7_unknown_opcode :
    (∀ (h : Nat) (r : List Nat), lookupPacket h = none →
      parseFullPacket (h :: r) = .error .switchMiss ∧
      parse_packets (h :: r) = ([], h :: r) ∧
      parse_packets_incrementally (h :: r) = ([], some .switchMiss)) ∧
    lookupPacket 27 = none ∧ lookupPacket 36 = none ∧ lookupPacket 37 = none :=
  ⟨fun _ _ hl =>
    ⟨unknown_opcode_full hl, unknown_opcode_bulk hl, unknown_opcode_incremental hl⟩,
   by decide, by decide, by decide⟩

/-- Witness for C7 at opcode byte 27. -/
theorem C7_witness :
    parseFullPacket (27 :: [1, 2]) = .error .switchMiss ∧
    parse_packets (27 :: [1, 2]) = ([], 27 :: [1, 2]) ∧
    parse_packets_incrementally (27 :: [1, 2]) = ([], some .switchMiss) :=
  C7_unknown_opcode.1 27 [1, 2] (by decide)

/-- C7 counterexample: bulk parse of an unregistered opcode returns the
bytes as leftovers without raising a hard error. -/
theorem C7_counterexample :
    lookupPacket 27 = none ∧
    parse_packets [27, 1, 2] = ([], [27, 1, 2]) := by decide

/-- C8: make_packet on a name absent from the registry returns the empty
bytestream without raising past the call boundary, and every successful
encode of a registered name is non-empty (the opcode byte precedes the
payload), so the failure signal is distinct from every success. -/
theorem C8_make_packet_failure :
    (∀ (p : String) (args : List (List (String × Value))) (kw : Value),
      lookupName p = none → make_packet p args kw = .ok []) ∧
    (∀ (p : String) (args : List (List (String × Value))) (kw : Value) (bs : List Nat),
      lookupName p ≠ none → make_packet p args kw = .ok bs → bs ≠ []) := by
  constructor
  · intro p args kw h
    unfold make_packet
    rw [h]
  · intro p args kw bs hne hok
    unfold make_packet at hok
    cases hn : lookupName p with
    | none => exact absurd hn hne
    | some header =>
      rw [hn] at hok
      dsimp only at hok
      cases hl : lookupPacket header with
      | none => rw [hl] at hok; simp at hok
      | some c =>
        rw [hl] at hok
        dsimp only at hok
        cases hb : buildCon (conBody c) (mergeSources kw args) with
        | error e => rw [hb] at hok; simp at hok
        | ok payload =>
          rw [hb] at hok
          simp at hok
          rw [← hok]
          simp

/-- Witness for C8 at an unknown name and the ping packet. -/
theorem C8_witness :
    make_packet "not-a-real-packet" [] vnil = .ok [] ∧
    ([0, 0, 0, 0, 7] : List Nat) ≠ [] :=
  ⟨C8_make_packet_failure.1 "not-a-real-packet" [] vnil (by decide),
   C8_make_packet_failure.2 "ping" [] (vfield "pid" (vint 7) vnil) [0, 0, 0, 0, 7]
     (by decide) (by decide)⟩

/-- C9 (amended): make_packet merges extra positional field sources into
the keyword container in call order with Python dict-update semantics, so
a later source DOES override a value already present: the merged container
binds each field to the last source that sets it, falling back to the
keyword arguments. -/
theorem C9_merge_order :
    (∀ (args : List (List (String × Value))) (kw : Value) (k : String),
      blookup (mergeSources kw args) k =
        match lastSourceVal args k with
        | some v => some v
        | none => blookup kw k) ∧
    make_packet "ping" [[("pid", vint 2)]] (vfield "pid" (vint 1) vnil) =
      .ok [0, 0, 0, 0, 2] :=
  ⟨fun args kw k => mergeSources_lookup args kw k, by decide⟩

/-- C9 counterexample: a positional source overrides the keyword value of
the same field, contradicting the claim that it must not. -/
theorem C9_counterexample :
    make_packet "ping" [[("pid", vint 2)]] (vfield "pid" (vint 1) vnil) =
      .ok [0, 0, 0, 0, 2] ∧
    make_packet "ping" [[("pid", vint 2)]] (vfield "pid" (vint 1) vnil) ≠
      .ok [0, 0, 0, 0, 1] := by decide

/-- C10: the schema names of the registered opcodes are pairwise distinct,
and for every registered opcode k, looking up the name of packets[k] in
packets_by_name returns k. -/
theorem C10_registry_inverse :
    (packets.map (fun kc => conName kc.2)).Nodup ∧
    ∀ kc ∈ packets, lookupName (conName kc.2) = some kc.1 := by decide

/-- Witness for C10 at the ping entry. -/
theorem C10_witness : lookupName (conName (Struct "ping" [UBInt32 "pid"])) = some 0 :=
  C10_registry_inverse.2 (0, Struct "ping" [UBInt32 "pid"]) (by decide)

/-- C2 counterexample: the five bytes of a window-token packet whose flag
byte is 2 form a valid encoded packet (bulk parse accepts them in full),
but re-encoding the decoded payload emits flag byte 1, so re-encoding is
not byte-exact for every valid encoded packet. -/
theorem C2_counterexample :
    parse_packets [106, 1, 0, 5, 2] =
      ([(106, vrec (vfield "wid" (vint 1) (vfield "token" (vint 5)
        (vfield "acknowledged" (vbool true) vnil))))], []) ∧
    make_packet "window-token" []
      (vfield "wid" (vint 1) (vfield "token" (vint 5)
        (vfield "acknowledged" (vbool true) vnil))) = .ok [106, 1, 0, 5, 1] ∧
    ([106, 1, 0, 5, 1] : List Nat) ≠ [106, 1, 0, 5, 2] := by decide

set_option maxRecDepth 100000 in
/-- C2 (amended): for every registered opcode there is a valid fixture
payload whose encoding through make_packet parses back to exactly that
(opcode, payload) pair with no leftover, and whose decoded payload
re-encodes to the same bytes byte-exactly. -/
theorem C2_roundtrip_fixtures : ∀ kc ∈ packets, rtOK kc.1 kc.2 := by decide

/-- Witness for C2 at the ping opcode. -/
theorem C2_witness : rtOK 0 (Struct "ping" [UBInt32 "pid"]) :=
  C2_roundtrip_fixtures (0, Struct "ping" [UBInt32 "pid"]) (by decide)

/-- Witness for C4 at concrete item-stack bytes. -/
theorem C4_witness :
    parseItems (255 :: 255 :: [9]) =
      .ok (vfield "primary" (vint (sInt 2 (255 * 256 + 255))) vnil, [9]) ∧
    parseItems (0 :: 1 :: 5 :: 0 :: 3 :: 255 :: 255 :: [9]) =
      .ok (vfield "primary" (vint (sInt 2 (0 * 256 + 1)))
        (vfield "count" (vint (5 : Nat))
          (vfield "secondary" (vint ((0 * 256 + 3 : Nat))) vnil)), [9]) ∧
    parseItems (0 :: 1 :: 5 :: 0 :: 3 :: 255 :: 0 :: [9]) = .error .constMism ∧
    buildItems (vfield "primary" (vint 1) (vfield "count" (vint 5)
        (vfield "secondary" (vint 3) vnil))) =
      .ok (beBytes 2 (1 : Int).toNat ++ beBytes 1 (5 : Int).toNat ++
        beBytes 2 (3 : Int).toNat ++ [255, 255]) :=
  ⟨C4_item_stack.1 255 255 [9] (by decide),
   C4_item_stack.2.1 0 1 5 0 3 [9] (by decide),
   C4_item_stack.2.2.1 0 1 5 0 3 255 0 [9] (by decide) (by decide),
   C4_item_stack.2.2.2 1 5 3 (by decide) (by decide) (by decide) (by decide)
     (by decide) (by decide)⟩

/-- Witness for C6 at a one-character string. -/
theorem C6_witness :
    (parseAlpha (0 :: 1 :: [0, 65]) =
      .ok (vstr (ucs2decode (List.take ((0 * 256 + 1) * 2) [0, 65])),
        List.drop ((0 * 256 + 1) * 2) [0, 65]) ∧
     (ucs2decode (List.take ((0 * 256 + 1) * 2) [0, 65])).length = 0 * 256 + 1) ∧
    (buildAlpha (vstr [65]) = .ok (beBytes 2 [65].length ++ ucs2encode [65]) ∧
     (ucs2encode [65]).length = 2 * [65].length) :=
  ⟨C6_alpha_string.1 0 1 [0, 65] (by decide), C6_alpha_string.2 [65] (by decide)⟩
